import Mathlib

/-!
Verification of the structural-comparison modules of the Sandrone repository:
the JSON comparator (`src/PavironicaJS/jsonComparator.js`), the XML comparator
(`src/unnamed/part_000`) and the CSV comparator (`src/unnamed/part_003`).

The JavaScript sources are embedded shallowly:

* JSON values are modelled by the inductive `Json`; JSON numbers are modelled
  as integers (the claims under study only exercise integer literals, and
  `JSON.stringify`/`String(n)` print integers in plain decimal exactly as
  `intChars` below does).
* `JSON.parse`, `DOMParser` and the browser DOM are external collaborators:
  comparator entry points take the parser as a function argument.
* JavaScript's `Array.prototype.sort` with a comparator is a stable sort
  (ECMAScript 2019); any stable sort agrees with `List.insertionSort` on a
  total preorder, so the source's `sort(cmp)` is modelled by
  `List.insertionSort` with the boolean order `le a b := ¬ cmp(b,a) < 0`.
* JavaScript string comparison (`<` on strings) is by code units; it is
  modelled by `strLtB`, lexicographic comparison of the characters' scalar
  values (the two agree on all strings appearing here).
* All definitions are written with structural recursion (the JSON differ
  through an explicit fuel bounded by term size) so that every function
  evaluates by kernel reduction.
-/

/-- A single-quote character, used when building the comparators' diff
messages (`Item '...[2]' only in second.` and the like). -/
def sQuote : String := String.mk [Char.ofNat 39]

/-- Characters JavaScript's `String.prototype.trim` and `\s` treat as
whitespace (the ASCII part; the sources never produce the Unicode extras). -/
def isWsChar (c : Char) : Bool :=
  c = ' ' || c = '\t' || c = '\n' || c = '\r' || c = '\x0b' || c = '\x0c'

/-- Model of JavaScript `String.prototype.trim`. -/
def trimJs (s : String) : String :=
  String.mk (((s.data.dropWhile isWsChar).reverse.dropWhile isWsChar).reverse)

/-- One step of `replace(/\s+/g, ' ')`: the boolean records whether the
previous character was part of a whitespace run. -/
def collapseWsAux : List Char → Bool → List Char
  | [], _ => []
  | c :: cs, prev =>
      if isWsChar c then
        if prev then collapseWsAux cs true else ' ' :: collapseWsAux cs true
      else c :: collapseWsAux cs false

/-- Model of `msg.replace(/\s+/g, ' ')`. -/
def collapseWs (s : String) : String := String.mk (collapseWsAux s.data false)

/-- ASCII lower-casing of one character (model of `toLowerCase` on the ASCII
option strings the comparator receives). -/
def lowerChar (c : Char) : Char :=
  if 'A' ≤ c ∧ c ≤ 'Z' then Char.ofNat (c.toNat + 32) else c

/-- Model of JavaScript `String.prototype.toLowerCase` on ASCII strings. -/
def toLowerJs (s : String) : String := String.mk (s.data.map lowerChar)

/-- Lexicographic `<` on character lists by scalar value: the model of
JavaScript's `<` on strings. -/
def strLtCh : List Char → List Char → Bool
  | [], [] => false
  | [], _ :: _ => true
  | _ :: _, [] => false
  | a :: as, b :: bs =>
      if a.toNat < b.toNat then true
      else if b.toNat < a.toNat then false
      else strLtCh as bs

/-- JavaScript `a < b` on strings. -/
def strLtB (a b : String) : Bool := strLtCh a.data b.data

/-- The boolean order a stable sort uses for the source's three-way comparator
`sa < sb ? -1 : sa > sb ? 1 : 0`: `a` may stay before `b` iff `¬ b < a`. -/
def strLeB (a b : String) : Bool := !(strLtB b a)

/-- Decimal digit characters. -/
def digitChar : Nat → Char
  | 0 => '0' | 1 => '1' | 2 => '2' | 3 => '3' | 4 => '4'
  | 5 => '5' | 6 => '6' | 7 => '7' | 8 => '8' | 9 => '9'
  | _ => '0'

/-- Decimal digits of a natural number, with explicit fuel so that the
definition is structural (the fuel is always taken `> n`). -/
def natCharsAux : Nat → Nat → List Char
  | 0, _ => []
  | fuel + 1, n =>
      if n < 10 then [digitChar n]
      else natCharsAux fuel (n / 10) ++ [digitChar (n % 10)]

/-- Decimal digits of a natural number. -/
def natChars (n : Nat) : List Char := natCharsAux (n + 1) n

/-- Decimal rendering of a natural number (array indices in diff paths). -/
def natStr (n : Nat) : String := String.mk (natChars n)

/-- Decimal rendering of an integer: JavaScript's `String(n)` and
`JSON.stringify(n)` for the integer numbers modelled here. -/
def intChars : Int → List Char
  | .ofNat n => natChars n
  | .negSucc m => '-' :: natChars (m + 1)

/-- `String(n)` for an integer. -/
def intStr (n : Int) : String := String.mk (intChars n)

/-- `JSON.stringify` escaping of one string character. Control-character
escapes are omitted: they affect neither the injectivity nor any ordering
fact used below, and no claim exercises them. -/
def escChar (c : Char) : List Char :=
  if c = '"' ∨ c = '\\' then ['\\', c] else [c]

/-- `JSON.stringify` escaping of a character list. -/
def escChars (s : List Char) : List Char := s.flatMap escChar

/-- `JSON.stringify` of a string value. -/
def serStrChars (s : String) : List Char := '"' :: (escChars s.data ++ ['"'])

/-- `JSON.stringify` of a string value, as a string. -/
def quoteJs (s : String) : String := String.mk (serStrChars s)

/-- Comma-join of character lists (`Array.prototype.join` with `,` inside a
serialized array/object). -/
def joinC : List (List Char) → List Char
  | [] => []
  | [x] => x
  | x :: xs => x ++ ',' :: joinC xs

/-- Comma-join of strings. -/
def joinCommaS : List String → String
  | [] => ""
  | [x] => x
  | x :: xs => x ++ "," ++ joinCommaS xs

/-- First-occurrence deduplication: the enumeration order of a JavaScript
`Set` built from a list. -/
def dedupFirst {α : Type} [DecidableEq α] (ks : List α) : List α :=
  ks.foldl (fun acc k => if k ∈ acc then acc else acc ++ [k]) []

/-- Pipe-join of strings (the XML comparator's `join('|')`). -/
def joinPipeS : List String → String
  | [] => ""
  | [x] => x
  | x :: xs => x ++ "|" ++ joinPipeS xs

namespace JsonComparator

/-- The JSON value model. Numbers are integers (see the header note);
objects are association lists in insertion order, with the unique-key
invariant JavaScript objects guarantee. -/
inductive Json : Type where
  | null : Json
  | bool : Bool → Json
  | num : Int → Json
  | str : String → Json
  | arr : List Json → Json
  | obj : List (String × Json) → Json

mutual

/-- Characters of `JSON.stringify(j)` (compact form, object keys in the
listed order — `sortJson` sorts them before this is used as a sort key). -/
def ser : Json → List Char
  | .null => "null".data
  | .bool true => "true".data
  | .bool false => "false".data
  | .num n => intChars n
  | .str s => serStrChars s
  | .arr xs => '[' :: (serL xs ++ [']'])
  | .obj ps => '\x7b' :: (serP ps ++ ['\x7d'])

/-- Serialized array elements, comma-separated. -/
def serL : List Json → List Char
  | [] => []
  | [x] => ser x
  | x :: xs => ser x ++ ',' :: serL xs

/-- Serialized object entries, comma-separated. -/
def serP : List (String × Json) → List Char
  | [] => []
  | [(k, v)] => serStrChars k ++ ':' :: ser v
  | (k, v) :: ps => (serStrChars k ++ ':' :: ser v) ++ ',' :: serP ps

end

/-- `JSON.stringify(j)`: the canonical sort key used by full mode. -/
def stringify (j : Json) : String := String.mk (ser j)

/-- The sort key order of `sortJson`'s full mode: the stable-sort order for
the comparator `JSON.stringify(a) < JSON.stringify(b) ? -1 : ... `. -/
def keyLe (a b : Json) : Bool := strLeB (stringify a) (stringify b)

/-- The comparator's mode after `compare` resolves the option string. -/
inductive Mode where
  | exact
  | full
  | ordered
deriving DecidableEq

mutual

/-- Model of `sortJson` (jsonComparator.js lines 7–28): objects get their
entries sorted by key in every structural mode; arrays are additionally
sorted by serialized form in full mode. The source iterates
`Object.keys(obj).sort()` and looks each key up; since JavaScript object keys
are unique this is the same as sorting the entry list by key, which is how
the object case is written here. -/
def sortJson (mode : Mode) : Json → Json
  | .arr xs =>
      let norm := sortJsonL mode xs
      .arr (if mode = .full then List.insertionSort (fun a b => keyLe a b) norm else norm)
  | .obj ps => .obj (List.insertionSort (fun a b => strLeB a.1 b.1) (sortJsonP mode ps))
  | j => j

/-- `obj.map(x => sortJson(x, mode))` on an array's elements. -/
def sortJsonL (mode : Mode) : List Json → List Json
  | [] => []
  | x :: xs => sortJson mode x :: sortJsonL mode xs

/-- Recursive canonicalization of an object's entries (values only). -/
def sortJsonP (mode : Mode) : List (String × Json) → List (String × Json)
  | [] => []
  | (k, v) :: ps => (k, sortJson mode v) :: sortJsonP mode ps

end

mutual

/-- JavaScript `String(v)`: used by the primitive-diff message for
non-string values (`[object Object]` for objects, comma-join for arrays). -/
def jsToString : Json → String
  | .null => "null"
  | .bool true => "true"
  | .bool false => "false"
  | .num n => intStr n
  | .str s => s
  | .arr xs => joinCommaS (jsToStringL xs)
  | .obj _ => "[object Object]"

/-- `Array.prototype.toString` renders `null` elements as empty strings. -/
def jsToStringL : List Json → List String
  | [] => []
  | x :: xs =>
      (match x with
       | .null => ""
       | y => jsToString y) :: jsToStringL xs

end

/-- The source's `show`: strings are `JSON.stringify`-quoted, everything
else rendered with `String(v)`. -/
def showJs : Json → String
  | .str s => quoteJs s
  | v => jsToString v

/-- JavaScript strict equality `o1 !== o2` as the primitive branch of
`findDifferences` observes it: equal primitives of the same type compare
equal; every other pair — mixed types, or two containers, which at that
point are always distinct freshly-parsed references — compares unequal.
(Container/container pairs never reach this branch: both-array and
both-object pairs are handled by the earlier branches.) -/
def strictEq : Json → Json → Bool
  | .null, .null => true
  | .bool a, .bool b => a = b
  | .num a, .num b => a = b
  | .str a, .str b => a = b
  | _, _ => false

mutual

/-- Term size of a `Json` value, the fuel bound for the differ. -/
def jsize : Json → Nat
  | .null => 1
  | .bool _ => 1
  | .num _ => 1
  | .str _ => 1
  | .arr xs => 1 + jsizeL xs
  | .obj ps => 1 + jsizeP ps

/-- Term size of an array's elements. -/
def jsizeL : List Json → Nat
  | [] => 0
  | x :: xs => 1 + jsize x + jsizeL xs

/-- Term size of an object's entries. -/
def jsizeP : List (String × Json) → Nat
  | [] => 0
  | (_, v) :: ps => 1 + jsize v + jsizeP ps

end

/-- The sorted union of two objects' keys, as `findDifferences` visits it. -/
def unionKeys (ps1 ps2 : List (String × Json)) : List String :=
  List.insertionSort (fun a b => strLeB a b)
    (dedupFirst (ps1.map Prod.fst ++ ps2.map Prod.fst))

/-- The extension of `path` by an object key: `path ? path.k : k`. -/
def keyPath (path k : String) : String :=
  if path = "" then k else path ++ "." ++ k

/-- The extension of `path` by an array index: `path[i]`. -/
def idxPath (path : String) (i : Nat) : String :=
  path ++ "[" ++ natStr i ++ "]"

/-- The primitive diff record `Diff at 'path': show(o1) != show(o2)`. -/
def primMsg (path : String) (o1 o2 : Json) : String :=
  "Diff at " ++ sQuote ++ path ++ sQuote ++ ": " ++ showJs o1 ++ " != " ++ showJs o2

/-- The record for an array item present on one side only. -/
def itemMsg (path : String) (i : Nat) (side : String) : String :=
  "Item " ++ sQuote ++ idxPath path i ++ sQuote ++ " only in " ++ side ++ "."

/-- The record for an object key present on one side only. -/
def keyMsg (p side : String) : String :=
  "Key " ++ sQuote ++ p ++ sQuote ++ " only in " ++ side ++ " file."

/-- The per-index records for an array length mismatch (source lines 37–45):
one record per extra index, ascending, naming the longer side. -/
def extraItems (len1 len2 : Nat) (path : String) : List String :=
  if len2 < len1 then
    (List.range' len2 (len1 - len2)).map (fun i => itemMsg path i "first")
  else
    (List.range' len1 (len2 - len1)).map (fun i => itemMsg path i "second")

/-- The recursive engine of `findDifferences` (jsonComparator.js lines
30–70), indexed by fuel; `findDifferences` below supplies fuel larger than
the combined term size, below which the result no longer depends on it. -/
def fdGo : Nat → Json → Json → String → List String
  | 0, _, _, _ => []
  | fuel + 1, .arr l1, .arr l2, path =>
      (List.range (min l1.length l2.length)).flatMap
        (fun i => fdGo fuel (l1.getD i .null) (l2.getD i .null) (idxPath path i)) ++
      extraItems l1.length l2.length path
  | fuel + 1, .obj ps1, .obj ps2, path =>
      (unionKeys ps1 ps2).flatMap (fun k =>
        match ps1.lookup k, ps2.lookup k with
        | none, _ => [keyMsg (keyPath path k) "second"]
        | some _, none => [keyMsg (keyPath path k) "first"]
        | some v1, some v2 => fdGo fuel v1 v2 (keyPath path k))
  | _ + 1, o1, o2, path =>
      if strictEq o1 o2 then [] else [primMsg path o1 o2]

/-- Model of the generator `findDifferences(o1, o2, path)`. -/
def findDifferences (o1 o2 : Json) (path : String) : List String :=
  fdGo (jsize o1 + jsize o2) o1 o2 path

/-- Split on `/\r?\n/` (the `lineDiff` line splitter). -/
def splitLinesAux : List Char → List Char → List String
  | [], acc => [String.mk acc.reverse]
  | '\r' :: '\n' :: rest, acc => String.mk acc.reverse :: splitLinesAux rest []
  | '\n' :: rest, acc => String.mk acc.reverse :: splitLinesAux rest []
  | c :: rest, acc => splitLinesAux rest (c :: acc)

/-- `text.split(/\r?\n/)`. -/
def splitLines (s : String) : List String := splitLinesAux s.data []

/-- The `+`-records emitted once the first line list is exhausted. -/
def plusLines : List String → List String
  | [] => []
  | lb :: bs => ("+ " ++ lb) :: plusLines bs

/-- The `-`-records emitted once the second line list is exhausted. -/
def minusLines : List String → List String
  | [] => []
  | la :: as => ("- " ++ la) :: minusLines as

/-- The index loop of `lineDiff` over the two line lists: `+`-records where
the first list is exhausted, `-`-records where the second is, a `-`/`+` pair
at indices where both lines exist but differ. -/
def lineDiffAux : List String → List String → List String
  | [], bs => plusLines bs
  | la :: as, [] => ("- " ++ la) :: minusLines as
  | la :: as, lb :: bs =>
      (if la = lb then [] else ["- " ++ la, "+ " ++ lb]) ++ lineDiffAux as bs

/-- Model of `lineDiff(aText, bText)` (jsonComparator.js lines 72–85). -/
def lineDiff (aText bText : String) : List String :=
  lineDiffAux (splitLines aText) (splitLines bText)

/-- The options record `compare` receives: only `mode` matters to it. -/
structure Opts where
  mode : Option String := none

/-- Mode resolution (jsonComparator.js lines 88–89): `opts.mode || 'full'`
lower-cased, then the synonym chain whose final fallback is `'ordered'`. -/
def resolveMode (mode? : Option String) : Mode :=
  let m := toLowerJs (match mode? with
    | none => "full"
    | some s => if s = "" then "full" else s)
  if m = "order" ∨ m = "ordered" ∨ m = "arrays" ∨ m = "preserve" then .ordered
  else if m = "exact" then .exact
  else if m = "full" then .full
  else .ordered

/-- Model of the exported `compare(text1, text2, opts)` (lines 87–100), with
`JSON.parse` supplied as the external collaborator `parse` (a thrown parse
exception is an `Except.error` carrying `e.message`). -/
def compare (parse : String → Except String Json) (text1 text2 : String)
    (opts : Opts) : Except String (List String) :=
  let mode := resolveMode opts.mode
  if mode = .exact then
    if text1 = text2 then .ok [] else .ok (lineDiff text1 text2)
  else
    match parse text1 with
    | .error e => .error ("File A is not valid JSON: " ++ e)
    | .ok j1 =>
      match parse text2 with
      | .error e => .error ("File B is not valid JSON: " ++ e)
      | .ok j2 =>
        let s1 := sortJson (if mode = .full then .full else .ordered) j1
        let s2 := sortJson (if mode = .full then .full else .ordered) j2
        .ok (findDifferences s1 s2 "")

end JsonComparator

namespace XmlComparator

/-- A parsed DOM node as `DOMParser` hands it to the comparator: a text node,
an element (tag, attributes in document order with unique names, child
nodes), or any other node kind (comment, processing instruction), which
`normalize` drops. -/
inductive XNode where
  | text (s : String)
  | elem (tag : String) (attrs : List (String × String)) (children : List XNode)
  | other

/-- A normalized node (part_000 `normalize`): in JavaScript either a trimmed
string or a `{tag, attrib, children}` object; `.text ""` plays the role of
the empty string that callers filter out. -/
inductive NNode where
  | text (s : String)
  | elem (tag : String) (attrib : List (String × String)) (children : List NNode)

/-- `attrsKey` (part_000 lines 22–24): sorted `k=JSON.stringify(v)` pairs
joined with `|`. The source sorts `Object.keys` and looks each one up;
attribute names are unique, so sorting the entry list by name is the same. -/
def attrsKey (attrs : List (String × String)) : String :=
  joinPipeS (((List.insertionSort (fun a b => strLeB a.1 b.1) attrs)).map
    (fun kv => kv.1 ++ "=" ++ quoteJs kv.2))

/-- The child sort key of `normalize` (lines 44–45): `#text:` plus the text,
or tag plus `:` plus the sorted attribute key. The children are ignored. -/
def childKey : NNode → String
  | .text s => "#text:" ++ s
  | .elem tag attrib _ => tag ++ ":" ++ attrsKey attrib

/-- Whether a normalized child is the empty string the source filters out
(`if (n === '' || n === undefined) continue`). -/
def isEmptyText : NNode → Bool
  | .text s => s = ""
  | _ => false

mutual

/-- Model of `normalize(node, orderSensitive)` (part_000 lines 26–50). -/
def normalize (orderSensitive : Bool) : XNode → NNode
  | .text s => .text (trimJs s)
  | .other => .text ""
  | .elem tag attrs cs =>
      let children := (normalizeL orderSensitive cs).filter (fun n => !isEmptyText n)
      .elem tag attrs
        (if orderSensitive then children
         else List.insertionSort (fun a b => strLeB (childKey a) (childKey b)) children)

/-- `normalize` mapped over a node's children. -/
def normalizeL (orderSensitive : Bool) : List XNode → List NNode
  | [] => []
  | c :: cs => normalize orderSensitive c :: normalizeL orderSensitive cs

end

/-- String interpolation of a normalized node inside a template literal:
the string itself for a text node, `[object Object]` for an element. -/
def showN : NNode → String
  | .text s => s
  | .elem _ _ _ => "[object Object]"

/-- `JSON.stringify` of an attribute map as the differ compares it (line
66): entries in insertion (document) order, not sorted. -/
def stringifyAttrs (attrs : List (String × String)) : String :=
  "\x7b" ++ joinCommaS (attrs.map (fun kv => quoteJs kv.1 ++ ":" ++ quoteJs kv.2)) ++ "\x7d"

/-- `path || '/'`. -/
def pathOrRoot (path : String) : String := if path = "" then "/" else path

/-- The path segment label of a child (line 75): `#text` or the tag. -/
def childTagName : NNode → String
  | .text _ => "#text"
  | .elem tag _ _ => tag

/-- The text-diff record of the differ's string branch. -/
def textMsg (path : String) (n1 n2 : NNode) : String :=
  "Text diff at " ++ pathOrRoot path ++ ": " ++ sQuote ++ showN n1 ++ sQuote ++
    " != " ++ sQuote ++ showN n2 ++ sQuote

/-- The tag-mismatch record. -/
def tagMsg (path : String) (t1 t2 : String) : String :=
  "Tag diff at " ++ pathOrRoot path ++ ": " ++ t1 ++ " != " ++ t2

/-- The single atomic attribute-mismatch record. -/
def attribMsg (path : String) (a1 a2 : List (String × String)) : String :=
  "Attrib diff at " ++ pathOrRoot path ++ ": " ++ stringifyAttrs a1 ++ " != " ++
    stringifyAttrs a2

/-- The record for a child present on one side only (lines 79–88). -/
def extraElemMsg (path : String) (n : NNode) (side : String) : String :=
  "Extra element " ++ pathOrRoot path ++ (if path = "" then "" else "/") ++
    childTagName n ++ " in " ++ side ++ "."

mutual

/-- Model of the generator `diff(n1, n2, path)` (part_000 lines 52–90).
The string branch compares with `!==`: two text nodes compare by value, a
text/element pair is always unequal (string versus object reference). -/
def diff : NNode → NNode → String → List String
  | .text s1, .text s2, path =>
      if s1 = s2 then [] else [textMsg path (.text s1) (.text s2)]
  | .text s1, .elem t a c, path => [textMsg path (.text s1) (.elem t a c)]
  | .elem t a c, .text s2, path => [textMsg path (.elem t a c) (.text s2)]
  | .elem t1 a1 c1, .elem t2 a2 c2, path =>
      (if t1 = t2 then [] else [tagMsg path t1 t2]) ++
      (if stringifyAttrs a1 = stringifyAttrs a2 then [] else [attribMsg path a1 a2]) ++
      diffChildren c1 c2 path ++
      (if c2.length < c1.length then
        (c1.drop c2.length).map (fun n => extraElemMsg path n "first")
       else
        (c2.drop c1.length).map (fun n => extraElemMsg path n "second"))

/-- The positional walk over the first `min(len1, len2)` child pairs; the
path segment is taken from the first document's child (line 74–77). -/
def diffChildren : List NNode → List NNode → String → List String
  | x :: xs, y :: ys, path =>
      diff x y (path ++ "/" ++ childTagName x) ++ diffChildren xs ys path
  | _, _, _ => []

end

/-- Model of `parseXml(text, label)` (part_000 lines 4–13): the `DOMParser`
call itself is the external collaborator `domParse`; the source turns a
`parsererror` document into a thrown error labelled with the side, its
message whitespace-collapsed and trimmed, defaulting when empty. -/
def parseXml (domParse : String → Except String XNode) (text label : String) :
    Except String XNode :=
  match domParse text with
  | .error msg =>
      let m := if msg = "" then "Unknown parse error" else msg
      .error (label ++ " parse error: " ++ trimJs (collapseWs m))
  | .ok root => .ok root

/-- The root element's tag name. -/
def rootTag : XNode → String
  | .elem tag _ _ => tag
  | _ => ""

/-- The XML comparator's options: `orderSensitive` (default false). -/
structure Opts where
  orderSensitive : Bool := false

/-- Model of the exported `compare(xmlText1, xmlText2, opts)` (lines
92–99). -/
def compare (domParse : String → Except String XNode) (t1 t2 : String)
    (opts : Opts) : Except String (List String) :=
  match parseXml domParse t1 "XML A" with
  | .error e => .error e
  | .ok root1 =>
    match parseXml domParse t2 "XML B" with
    | .error e => .error e
    | .ok root2 =>
      let n1 := normalize opts.orderSensitive root1
      let n2 := normalize opts.orderSensitive root2
      .ok (diff n1 n2 ("/" ++ rootTag root1))

end XmlComparator

namespace CsvComparator

/-- A CSV row: the ordered list of its cell strings. -/
abbrev Row := List String

/-- `pushRow` (part_003 lines 11–14): append the row unless ignore-empty is
on and the row is a single empty field (a blank line). -/
def pushRow (ignoreEmpty : Bool) (row : Row) (rows : List Row) : List Row :=
  if ignoreEmpty ∧ row.length = 1 ∧ row.headD "x" = "" then rows else rows ++ [row]

/-- The character loop of `parseCSV` (part_003 lines 16–39) followed by the
final flush (lines 40–42): state is the remaining characters, the in-quotes
flag, the field and row being built, and the rows finished so far. The field
accumulator is kept reversed and flipped when the field is pushed. Carriage
return is matched before the delimiter test, so the model assumes the
delimiter is not itself a carriage return (the source checks the delimiter
first; no caller passes a control character as delimiter). -/
def runCSV (delim : Char) (ignoreEmpty : Bool) :
    List Char → Bool → List Char → Row → List Row → List Row
  | [], _, field, row, rows =>
      pushRow ignoreEmpty (row ++ [String.mk field.reverse]) rows
  | '"' :: '"' :: cs, true, field, row, rows =>
      runCSV delim ignoreEmpty cs true ('"' :: field) row rows
  | '"' :: cs, true, field, row, rows =>
      runCSV delim ignoreEmpty cs false field row rows
  | c :: cs, true, field, row, rows =>
      runCSV delim ignoreEmpty cs true (c :: field) row rows
  | '"' :: cs, false, field, row, rows =>
      runCSV delim ignoreEmpty cs true field row rows
  | '\r' :: '\n' :: cs, false, field, row, rows =>
      runCSV delim ignoreEmpty cs false [] []
        (pushRow ignoreEmpty (row ++ [String.mk field.reverse]) rows)
  | '\r' :: cs, false, field, row, rows =>
      runCSV delim ignoreEmpty cs false [] []
        (pushRow ignoreEmpty (row ++ [String.mk field.reverse]) rows)
  | c :: cs, false, field, row, rows =>
      if c = delim then
        runCSV delim ignoreEmpty cs false [] (row ++ [String.mk field.reverse]) rows
      else if c = '\n' then
        runCSV delim ignoreEmpty cs false [] []
          (pushRow ignoreEmpty (row ++ [String.mk field.reverse]) rows)
      else
        runCSV delim ignoreEmpty cs false (c :: field) row rows

/-- Model of `parseCSV(text, delimiter, { ignoreEmpty })` (lines 4–44). -/
def parseCSV (text : String) (delim : Char) (ignoreEmpty : Bool) : List Row :=
  runCSV delim ignoreEmpty text.data false [] [] []

/-- `toKey` (lines 46–49) serializes a row with `JSON.stringify` purely so
that rows compare by value in a `Map`; `JSON.stringify` is injective on
arrays of strings and `JSON.parse` recovers the row, so the key is modelled
by the row value itself. -/
def toKey (row : Row) : Row := row

/-- One `Map.set(k, (map.get(k) || 0) + 1)` step: bump an existing entry or
append a new one (JavaScript `Map` preserves insertion order). -/
def bump (m : List (Row × Nat)) (r : Row) : List (Row × Nat) :=
  if (m.lookup r).isSome then
    m.map (fun p => if p.1 = r then (p.1, p.2 + 1) else p)
  else m ++ [(r, 1)]

/-- Model of `countRows(rows)` (lines 51–58). -/
def countRows (rows : List Row) : List (Row × Nat) :=
  rows.foldl (fun m r => bump m (toKey r)) []

/-- The comparator's result object. -/
structure Result where
  missingInFile2 : List Row
  missingInFile1 : List Row
deriving DecidableEq, Repr

/-- The per-key emission loop (lines 74–85) over the union of the two count
maps' keys in first-occurrence order. The source pushes into both output
arrays in one pass; the branches are exclusive per key, so each output list
is exactly the concatenation over the keys of its own branch's copies. -/
def diffRows (rows1 rows2 : List Row) : Result :=
  let c1 := countRows rows1
  let c2 := countRows rows2
  let allKeys := dedupFirst (c1.map Prod.fst ++ c2.map Prod.fst)
  { missingInFile2 := allKeys.flatMap (fun k =>
      let n1 := (c1.lookup k).getD 0
      let n2 := (c2.lookup k).getD 0
      if n2 < n1 then List.replicate (n1 - n2) k else [])
    missingInFile1 := allKeys.flatMap (fun k =>
      let n1 := (c1.lookup k).getD 0
      let n2 := (c2.lookup k).getD 0
      if n1 < n2 then List.replicate (n2 - n1) k else []) }

/-- The CSV comparator's options (lines 60–63): `delimiter ?? ','`,
`!!opts.ignoreHeader`, `opts.ignoreEmpty !== false`. -/
structure Opts where
  delimiter : Option Char := none
  ignoreHeader : Bool := false
  ignoreEmpty : Option Bool := none

/-- Model of the exported `compare(text1, text2, opts)` (lines 60–88). -/
def compare (text1 text2 : String) (opts : Opts) : Result :=
  let delimiter := opts.delimiter.getD ','
  let ignoreEmpty := opts.ignoreEmpty ≠ some false
  let rows1 := parseCSV text1 delimiter ignoreEmpty
  let rows2 := parseCSV text2 delimiter ignoreEmpty
  let eff1 := if opts.ignoreHeader ∧ rows1.length ≠ 0 then rows1.drop 1 else rows1
  let eff2 := if opts.ignoreHeader ∧ rows2.length ≠ 0 then rows2.drop 1 else rows2
  diffRows eff1 eff2

end CsvComparator

namespace JsonComparator

/-- "Child lists at every node are equal as multisets (permutations of
diff-equal children)" — the congruence-and-permutation closure the claim
about full-mode order-insensitivity quantifies over: reflexivity, symmetry,
transitivity, a permutation of an array's elements, and pointwise related
replacement of an array's elements or an object's entry values. Pointwise
relation is stated through `getD` so no bounds proofs are carried. -/
inductive MEq : Json → Json → Prop where
  | refl (j : Json) : MEq j j
  | symm {a b : Json} : MEq a b → MEq b a
  | trans {a b c : Json} : MEq a b → MEq b c → MEq a c
  | perm (xs ys : List Json) : xs.Perm ys → MEq (.arr xs) (.arr ys)
  | congrArr (xs ys : List Json) (hlen : xs.length = ys.length)
      (h : ∀ i, MEq (xs.getD i .null) (ys.getD i .null)) :
      MEq (.arr xs) (.arr ys)
  | congrObj (ps qs : List (String × Json)) (hlen : ps.length = qs.length)
      (hk : ∀ i, (ps.getD i ("", .null)).1 = (qs.getD i ("", .null)).1)
      (hv : ∀ i, MEq (ps.getD i ("", .null)).2 (qs.getD i ("", .null)).2) :
      MEq (.obj ps) (.obj qs)

/-- Modelled from the spec's words for the keyed (object) comparison step:
"compute the union of both key sets. For each key present in only one side,
emit `KeyOnlyIn(path.key, side)`. For keys present in both, recurse with
`path.key`. Keys are visited in lexicographic order for determinism." The
recursive call is abstracted so the description can be compared against the
implementation's object branch. -/
def keyedDiffSpec (recurse : Json → Json → String → List String)
    (ps1 ps2 : List (String × Json)) (path : String) : List String :=
  let keys1 := ps1.map Prod.fst
  let keys2 := ps2.map Prod.fst
  (List.insertionSort (fun a b => strLeB a b) (dedupFirst (keys1 ++ keys2))).flatMap
    (fun k =>
      if k ∈ keys1 then
        if k ∈ keys2 then
          recurse ((ps1.lookup k).getD .null) ((ps2.lookup k).getD .null) (keyPath path k)
        else [keyMsg (keyPath path k) "first"]
      else [keyMsg (keyPath path k) "second"])

end JsonComparator

namespace JsonComparator

/-- A concrete stand-in for `JSON.parse` on the handful of documents the
concrete test cases below use; anything else is a parse failure. -/
def jsonParseEx : String → Except String Json := fun t =>
  if t = "[1,2]" then .ok (.arr [.num 1, .num 2])
  else if t = "[2,1]" then .ok (.arr [.num 2, .num 1])
  else if t = "[1,2,3,4]" then .ok (.arr [.num 1, .num 2, .num 3, .num 4])
  else if t = "\x7b\"a\":1,\"b\":2\x7d" then .ok (.obj [("a", .num 1), ("b", .num 2)])
  else if t = "\x7b\"b\":2,\"a\":1\x7d" then .ok (.obj [("b", .num 2), ("a", .num 1)])
  else .error "Unexpected token"

end JsonComparator

namespace XmlComparator

/-- The first concrete test document: `<r><a><b/></a><a><c/></a></r>` as the
DOM hands it over. -/
def xmlDocA : XNode :=
  .elem "r" [] [.elem "a" [] [.elem "b" [] []], .elem "a" [] [.elem "c" [] []]]

/-- The second concrete test document: the root's two children swapped. -/
def xmlDocB : XNode :=
  .elem "r" [] [.elem "a" [] [.elem "c" [] []], .elem "a" [] [.elem "b" [] []]]

/-- A concrete stand-in for the `DOMParser` collaborator on the two test
documents. -/
def xmlParseEx : String → Except String XNode := fun t =>
  if t = "<r><a><b/></a><a><c/></a></r>" then .ok xmlDocA
  else if t = "<r><a><c/></a><a><b/></a></r>" then .ok xmlDocB
  else .error "Extra content at the end of the document"

end XmlComparator

/-- Decimal digit test on characters. -/
def isDig (c : Char) : Bool := 48 ≤ c.toNat ∧ c.toNat ≤ 57

/-- The numeric value of a decimal digit character. -/
def digitVal (c : Char) : Nat := c.toNat - 48

/-- The number a digit string denotes. -/
def valOfDigits (l : List Char) : Nat := l.foldl (fun a c => a * 10 + digitVal c) 0

/-- A character that can start a serialized JSON value. -/
def valueStartChar (c : Char) : Bool :=
  c = 'n' ∨ c = 't' ∨ c = 'f' ∨ c = '"' ∨ c = '[' ∨ c = '\x7b' ∨ c = '-' ∨ isDig c

/-- A tail a serialized JSON value may be followed by inside a larger
serialization: nothing, or a separator/closer character. -/
def goodTail (r : List Char) : Prop :=
  ∀ c l, r = c :: l → c = ',' ∨ c = ']' ∨ c = '\x7d'

/-- Equality of comparator outcomes is decidable (needed to evaluate the
concrete test cases). -/
instance {eps alpha : Type} [DecidableEq eps] [DecidableEq alpha] :
    DecidableEq (Except eps alpha) := fun x y =>
  match x, y with
  | .error a, .error b =>
      if h : a = b then isTrue (by rw [h])
      else isFalse (by intro hh; injection hh with hh; exact h hh)
  | .ok a, .ok b =>
      if h : a = b then isTrue (by rw [h])
      else isFalse (by intro hh; injection hh with hh; exact h hh)
  | .error _, .ok _ => isFalse (by intro hh; exact Except.noConfusion hh)
  | .ok _, .error _ => isFalse (by intro hh; exact Except.noConfusion hh)

/-! ## Theorems. First, order and injectivity infrastructure. -/

theorem char_eq_of_toNat_eq {a b : Char} (h : a.toNat = b.toNat) : a = b :=
  Char.ofNat_toNat a ▸ Char.ofNat_toNat b ▸ congrArg Char.ofNat h

theorem string_eq_of_data_eq {a b : String} (h : a.data = b.data) : a = b :=
  congrArg String.mk h

theorem strLtCh_irrefl : ∀ l, strLtCh l l = false
  | [] => rfl
  | c :: cs => by simp [strLtCh, strLtCh_irrefl cs]

theorem strLtCh_asymm : ∀ l1 l2, strLtCh l1 l2 = true → strLtCh l2 l1 = false
  | [], [] => by simp [strLtCh]
  | [], _ :: _ => by simp [strLtCh]
  | _ :: _, [] => by simp [strLtCh]
  | a :: as, b :: bs => by
      simp only [strLtCh]
      by_cases h1 : a.toNat < b.toNat
      · simp [h1]; omega
      · by_cases h2 : b.toNat < a.toNat
        · simp [h1, h2]
        · simp [h1, h2]
          exact strLtCh_asymm as bs

theorem strLtCh_trans : ∀ l1 l2 l3, strLtCh l1 l2 = true → strLtCh l2 l3 = true →
    strLtCh l1 l3 = true
  | _, [], [] => by simp [strLtCh]
  | _, _ :: _, [] => by simp [strLtCh]
  | [], _, _ :: _ => by simp [strLtCh]
  | _ :: _, [], _ => by simp [strLtCh]
  | a :: as, b :: bs, c :: cs => by
      intro h1 h2
      simp only [strLtCh] at h1 h2 ⊢
      by_cases hab : a.toNat < b.toNat
      · by_cases hbc : b.toNat < c.toNat
        · simp [show a.toNat < c.toNat by omega]
        · by_cases hcb : c.toNat < b.toNat
          · simp [hbc, hcb] at h2
          · simp [show a.toNat < c.toNat by omega]
      · by_cases hba : b.toNat < a.toNat
        · simp [hab, hba] at h1
        · simp only [hab, hba, if_false] at h1
          by_cases hbc : b.toNat < c.toNat
          · simp [show a.toNat < c.toNat by omega]
          · by_cases hcb : c.toNat < b.toNat
            · simp [hbc, hcb] at h2
            · simp only [hbc, hcb, if_false] at h2
              simp only [show ¬ a.toNat < c.toNat by omega,
                show ¬ c.toNat < a.toNat by omega, if_false]
              exact strLtCh_trans as bs cs h1 h2

theorem strLtCh_eq_of_not : ∀ l1 l2, strLtCh l1 l2 = false → strLtCh l2 l1 = false →
    l1 = l2
  | [], [] => fun _ _ => rfl
  | [], _ :: _ => by simp [strLtCh]
  | _ :: _, [] => by simp [strLtCh]
  | a :: as, b :: bs => by
      simp only [strLtCh]
      by_cases h1 : a.toNat < b.toNat
      · simp [h1]
      · by_cases h2 : b.toNat < a.toNat
        · simp [h1, h2]
        · simp [h1, h2]
          intro hab hba
          exact ⟨char_eq_of_toNat_eq (by omega), strLtCh_eq_of_not as bs hab hba⟩

theorem strLeB_total (a b : String) : strLeB a b = true ∨ strLeB b a = true := by
  unfold strLeB strLtB
  rcases h : strLtCh b.data a.data with _ | _
  · left; rfl
  · right
    simp [strLtCh_asymm _ _ h]

theorem strLeB_trans {a b c : String} (h1 : strLeB a b = true) (h2 : strLeB b c = true) :
    strLeB a c = true := by
  unfold strLeB strLtB at *
  simp only [Bool.not_eq_true'] at h1 h2 ⊢
  by_contra hca
  simp only [Bool.not_eq_false] at hca
  rcases h3 : strLtCh a.data b.data with _ | _
  · have hab := strLtCh_eq_of_not a.data b.data h3 h1
    rw [hab] at hca
    rw [hca] at h2
    exact absurd h2 (by simp)
  · have hcb := strLtCh_trans c.data a.data b.data hca h3
    rw [hcb] at h2
    exact absurd h2 (by simp)

theorem strLeB_antisymm {a b : String} (h1 : strLeB a b = true) (h2 : strLeB b a = true) :
    a = b := by
  unfold strLeB strLtB at h1 h2
  simp only [Bool.not_eq_true'] at h1 h2
  exact string_eq_of_data_eq (strLtCh_eq_of_not _ _ h2 h1)

theorem natCharsAux_stable : ∀ f1 f2 n, n < f1 → n < f2 →
    natCharsAux f1 n = natCharsAux f2 n
  | 0, _, _, h1, _ => absurd h1 (by omega)
  | _ + 1, 0, _, _, h2 => absurd h2 (by omega)
  | f1 + 1, f2 + 1, n, h1, h2 => by
      simp only [natCharsAux]
      by_cases h : n < 10
      · simp [h]
      · simp only [h, if_false]
        have hd : n / 10 < n := Nat.div_lt_self (by omega) (by omega)
        rw [natCharsAux_stable f1 f2 (n / 10) (by omega) (by omega)]

theorem natChars_eq (n : Nat) (h : ¬ n < 10) :
    natChars n = natChars (n / 10) ++ [digitChar (n % 10)] := by
  have hd : n / 10 < n := Nat.div_lt_self (by omega) (by omega)
  unfold natChars
  conv_lhs => rw [natCharsAux]
  simp only [h, if_false]
  rw [natCharsAux_stable n (n / 10 + 1) (n / 10) (by omega) (by omega)]

theorem natChars_lt10 (n : Nat) (h : n < 10) : natChars n = [digitChar n] := by
  unfold natChars
  simp [natCharsAux, h]

theorem digitChar_toNat : ∀ n, n < 10 → (digitChar n).toNat = 48 + n := by decide

theorem digitVal_digitChar : ∀ n, n < 10 → digitVal (digitChar n) = n := by decide

theorem isDig_digitChar : ∀ n, n < 10 → isDig (digitChar n) = true := by decide

theorem valOfDigits_append_one (l : List Char) (c : Char) :
    valOfDigits (l ++ [c]) = valOfDigits l * 10 + digitVal c := by
  unfold valOfDigits
  rw [List.foldl_append]
  rfl

theorem valOfDigits_natChars : ∀ n, valOfDigits (natChars n) = n
  | n => by
      by_cases h : n < 10
      · rw [natChars_lt10 n h]
        unfold valOfDigits
        simp [List.foldl, digitVal_digitChar n h]
      · have hd : n / 10 < n := Nat.div_lt_self (by omega) (by omega)
        rw [natChars_eq n h, valOfDigits_append_one, valOfDigits_natChars (n / 10),
          digitVal_digitChar (n % 10) (by omega)]
        omega

theorem natChars_inj {m n : Nat} (h : natChars m = natChars n) : m = n := by
  have := valOfDigits_natChars m
  rw [h, valOfDigits_natChars n] at this
  omega

theorem natChars_ne_nil : ∀ n, natChars n ≠ []
  | n => by
      by_cases h : n < 10
      · rw [natChars_lt10 n h]; simp
      · rw [natChars_eq n h]; simp

theorem natChars_all_dig : ∀ n, ∀ c ∈ natChars n, isDig c = true
  | n => by
      by_cases h : n < 10
      · rw [natChars_lt10 n h]
        intro c hc
        simp at hc
        subst hc
        exact isDig_digitChar n h
      · have hd : n / 10 < n := Nat.div_lt_self (by omega) (by omega)
        rw [natChars_eq n h]
        intro c hc
        rcases List.mem_append.mp hc with h1 | h1
        · exact natChars_all_dig (n / 10) c h1
        · simp at h1
          subst h1
          exact isDig_digitChar (n % 10) (by omega)

theorem natChars_head (n : Nat) : ∃ c t, natChars n = c :: t ∧ isDig c = true := by
  rcases h : natChars n with _ | ⟨c, t⟩
  · exact absurd h (natChars_ne_nil n)
  · exact ⟨c, t, rfl, natChars_all_dig n c (h ▸ List.mem_cons_self c t)⟩

theorem goodTail_nil : goodTail [] := by
  intro c l h
  cases h

theorem goodTail_comma (r : List Char) : goodTail (',' :: r) := by
  intro c l h
  cases h
  left
  rfl

theorem goodTail_rbracket (r : List Char) : goodTail (']' :: r) := by
  intro c l h
  cases h
  right
  left
  rfl

theorem goodTail_rbrace (r : List Char) : goodTail ('\x7d' :: r) := by
  intro c l h
  cases h
  right
  right
  rfl

theorem goodTail_head_not_dig {c : Char} {l : List Char} (h : goodTail (c :: l)) :
    isDig c = false := by
  rcases h c l rfl with rfl | rfl | rfl <;> decide

theorem goodTail_head_ne_minus {c : Char} {l : List Char} (h : goodTail (c :: l)) :
    c ≠ '-' := by
  rcases h c l rfl with rfl | rfl | rfl <;> decide

theorem goodTail_head_not_start {c : Char} {l : List Char} (h : goodTail (c :: l)) :
    valueStartChar c = false := by
  rcases h c l rfl with rfl | rfl | rfl <;> decide

theorem headNotDig_of_goodTail {r : List Char} (h : goodTail r) :
    ∀ c t, r = c :: t → isDig c = false := by
  intro c t hr
  subst hr
  exact goodTail_head_not_dig h

theorem digits_boundary : ∀ l1 l2 : List Char, ∀ r1 r2 : List Char,
    (∀ c ∈ l1, isDig c = true) → (∀ c ∈ l2, isDig c = true) →
    (∀ c t, r1 = c :: t → isDig c = false) → (∀ c t, r2 = c :: t → isDig c = false) →
    l1 ++ r1 = l2 ++ r2 → l1 = l2 ∧ r1 = r2
  | [], [], r1, r2, _, _, _, _, h => ⟨rfl, h⟩
  | [], c :: l2, r1, r2, _, h2, hr1, _, h => by
      simp only [List.nil_append, List.cons_append] at h
      subst h
      have := hr1 c (l2 ++ r2) rfl
      rw [h2 c (List.mem_cons_self c l2)] at this
      cases this
  | c :: l1, [], r1, r2, h1, _, _, hr2, h => by
      simp only [List.nil_append, List.cons_append] at h
      have := hr2 c (l1 ++ r1) h.symm
      rw [h1 c (List.mem_cons_self c l1)] at this
      cases this
  | c1 :: l1, c2 :: l2, r1, r2, h1, h2, hr1, hr2, h => by
      simp only [List.cons_append, List.cons.injEq] at h
      obtain ⟨rfl, h⟩ := h
      have := digits_boundary l1 l2 r1 r2
        (fun c hc => h1 c (List.mem_cons_of_mem _ hc))
        (fun c hc => h2 c (List.mem_cons_of_mem _ hc)) hr1 hr2 h
      exact ⟨by rw [this.1], this.2⟩

theorem natChars_boundary {m n : Nat} {r1 r2 : List Char}
    (hr1 : ∀ c t, r1 = c :: t → isDig c = false)
    (hr2 : ∀ c t, r2 = c :: t → isDig c = false)
    (h : natChars m ++ r1 = natChars n ++ r2) : m = n ∧ r1 = r2 := by
  have hb := digits_boundary (natChars m) (natChars n) r1 r2
    (natChars_all_dig m) (natChars_all_dig n) hr1 hr2 h
  exact ⟨natChars_inj hb.1, hb.2⟩

theorem intChars_boundary : ∀ m n : Int, ∀ r1 r2 : List Char, goodTail r1 → goodTail r2 →
    intChars m ++ r1 = intChars n ++ r2 → m = n ∧ r1 = r2
  | .ofNat a, .ofNat b, r1, r2, g1, g2, h => by
      have hb := natChars_boundary (headNotDig_of_goodTail g1) (headNotDig_of_goodTail g2) h
      exact ⟨congrArg Int.ofNat hb.1, hb.2⟩
  | .ofNat a, .negSucc b, r1, r2, _, _, h => by
      obtain ⟨c, t, hct, hd⟩ := natChars_head a
      simp only [intChars, hct, List.cons_append, List.cons.injEq] at h
      rw [h.1] at hd
      cases hd
  | .negSucc a, .ofNat b, r1, r2, _, _, h => by
      obtain ⟨c, t, hct, hd⟩ := natChars_head b
      simp only [intChars, hct, List.cons_append, List.cons.injEq] at h
      rw [← h.1] at hd
      cases hd
  | .negSucc a, .negSucc b, r1, r2, g1, g2, h => by
      simp only [intChars, List.cons_append, List.cons.injEq] at h
      have hb := natChars_boundary (headNotDig_of_goodTail g1) (headNotDig_of_goodTail g2) h.2
      have : a = b := by omega
      exact ⟨by rw [this], hb.2⟩

theorem escChar_plain {c : Char} (h1 : ¬(c = '"' ∨ c = '\\')) : escChar c = [c] := by
  unfold escChar
  simp [h1]

theorem escChar_esc {c : Char} (h1 : c = '"' ∨ c = '\\') : escChar c = ['\\', c] := by
  unfold escChar
  simp [h1]

theorem escChars_boundary : ∀ s1 s2 r1 r2 : List Char,
    escChars s1 ++ '"' :: r1 = escChars s2 ++ '"' :: r2 → s1 = s2 ∧ r1 = r2
  | [], [], r1, r2, h => by
      simp only [escChars, List.flatMap_nil, List.nil_append, List.cons.injEq] at h
      exact ⟨rfl, h.2⟩
  | [], c :: s2, r1, r2, h => by
      simp only [escChars, List.flatMap_nil, List.flatMap_cons, List.nil_append,
        List.append_assoc] at h
      by_cases hc : c = '"' ∨ c = '\\'
      · rw [escChar_esc hc] at h
        simp only [List.cons_append, List.cons.injEq] at h
        exact absurd h.1 (by decide)
      · rw [escChar_plain hc] at h
        simp only [List.cons_append, List.cons.injEq] at h
        exact absurd h.1.symm (by push_neg at hc; exact hc.1)
  | c :: s1, [], r1, r2, h => by
      simp only [escChars, List.flatMap_nil, List.flatMap_cons, List.nil_append,
        List.append_assoc] at h
      by_cases hc : c = '"' ∨ c = '\\'
      · rw [escChar_esc hc] at h
        simp only [List.cons_append, List.cons.injEq] at h
        exact absurd h.1.symm (by decide)
      · rw [escChar_plain hc] at h
        simp only [List.cons_append, List.cons.injEq] at h
        exact absurd h.1 (by push_neg at hc; exact hc.1)
  | c1 :: s1, c2 :: s2, r1, r2, h => by
      simp only [escChars, List.flatMap_cons, List.append_assoc] at h
      by_cases hc1 : c1 = '"' ∨ c1 = '\\' <;> by_cases hc2 : c2 = '"' ∨ c2 = '\\'
      · rw [escChar_esc hc1, escChar_esc hc2] at h
        simp only [List.cons_append, List.cons.injEq] at h
        obtain ⟨-, rfl, h⟩ := h
        have := escChars_boundary s1 s2 r1 r2 (by simpa [escChars] using h)
        exact ⟨by rw [this.1], this.2⟩
      · rw [escChar_esc hc1, escChar_plain hc2] at h
        simp only [List.cons_append, List.cons.injEq] at h
        exact absurd h.1.symm (by push_neg at hc2; exact hc2.2)
      · rw [escChar_plain hc1, escChar_esc hc2] at h
        simp only [List.cons_append, List.cons.injEq] at h
        exact absurd h.1 (by push_neg at hc1; exact hc1.2)
      · rw [escChar_plain hc1, escChar_plain hc2] at h
        simp only [List.cons_append, List.cons.injEq] at h
        obtain ⟨rfl, h⟩ := h
        have := escChars_boundary s1 s2 r1 r2 (by simpa [escChars] using h)
        exact ⟨by rw [this.1], this.2⟩

theorem serStr_boundary {k1 k2 : String} {r1 r2 : List Char}
    (h : serStrChars k1 ++ r1 = serStrChars k2 ++ r2) : k1 = k2 ∧ r1 = r2 := by
  simp only [serStrChars, List.cons_append, List.append_assoc, List.cons.injEq,
    List.singleton_append] at h
  have := escChars_boundary k1.data k2.data r1 r2 h.2
  exact ⟨string_eq_of_data_eq this.1, this.2⟩

namespace JsonComparator

mutual

theorem Json.indMem {motive : Json → Prop} (hnull : motive .null)
    (hbool : ∀ b, motive (.bool b)) (hnum : ∀ n, motive (.num n))
    (hstr : ∀ s, motive (.str s))
    (harr : ∀ xs, (∀ x, x ∈ xs → motive x) → motive (.arr xs))
    (hobj : ∀ ps, (∀ kv, kv ∈ ps → motive kv.2) → motive (.obj ps)) :
    ∀ j, motive j
  | .null => hnull
  | .bool b => hbool b
  | .num n => hnum n
  | .str s => hstr s
  | .arr xs => harr xs (Json.indMemArr hnull hbool hnum hstr harr hobj xs)
  | .obj ps => hobj ps (Json.indMemObj hnull hbool hnum hstr harr hobj ps)

theorem Json.indMemArr {motive : Json → Prop} (hnull : motive .null)
    (hbool : ∀ b, motive (.bool b)) (hnum : ∀ n, motive (.num n))
    (hstr : ∀ s, motive (.str s))
    (harr : ∀ xs, (∀ x, x ∈ xs → motive x) → motive (.arr xs))
    (hobj : ∀ ps, (∀ kv, kv ∈ ps → motive kv.2) → motive (.obj ps)) :
    ∀ xs : List Json, ∀ x, x ∈ xs → motive x
  | y :: ys => fun x hx => by
      rcases List.mem_cons.mp hx with h | h
      · rw [h]
        exact Json.indMem hnull hbool hnum hstr harr hobj y
      · exact Json.indMemArr hnull hbool hnum hstr harr hobj ys x h
  | [] => fun x hx => absurd hx (List.not_mem_nil x)

theorem Json.indMemObj {motive : Json → Prop} (hnull : motive .null)
    (hbool : ∀ b, motive (.bool b)) (hnum : ∀ n, motive (.num n))
    (hstr : ∀ s, motive (.str s))
    (harr : ∀ xs, (∀ x, x ∈ xs → motive x) → motive (.arr xs))
    (hobj : ∀ ps, (∀ kv, kv ∈ ps → motive kv.2) → motive (.obj ps)) :
    ∀ ps : List (String × Json), ∀ kv, kv ∈ ps → motive kv.2
  | (k, v) :: qs => fun kv hkv => by
      rcases List.mem_cons.mp hkv with h | h
      · rw [h]
        exact Json.indMem hnull hbool hnum hstr harr hobj v
      · exact Json.indMemObj hnull hbool hnum hstr harr hobj qs kv h
  | [] => fun kv hkv => absurd hkv (List.not_mem_nil kv)

end

theorem ser_head : ∀ j : Json, ∃ c t, ser j = c :: t ∧ valueStartChar c = true := by
  intro j
  cases j with
  | null => exact ⟨'n', _, rfl, by decide⟩
  | bool b => cases b with
    | true => exact ⟨'t', _, rfl, by decide⟩
    | false => exact ⟨'f', _, rfl, by decide⟩
  | num n => cases n with
    | ofNat a =>
        obtain ⟨c, t, hct, hd⟩ := natChars_head a
        exact ⟨c, t, by simp [ser, intChars, hct], by simp [valueStartChar, hd]⟩
    | negSucc a => exact ⟨'-', natChars (a + 1), by simp [ser, intChars], by decide⟩
  | str s => exact ⟨'"', _, rfl, by decide⟩
  | arr xs => exact ⟨'[', _, rfl, by decide⟩
  | obj ps => exact ⟨'\x7b', _, rfl, by decide⟩

theorem ser_append_head_eq {a b : Json} {r1 r2 : List Char} (h : ser a ++ r1 = ser b ++ r2)
    {c1 : Char} {t1 : List Char} {c2 : Char} {t2 : List Char}
    (e1 : ser a = c1 :: t1) (e2 : ser b = c2 :: t2) : c1 = c2 := by
  rw [e1, e2] at h
  simp only [List.cons_append, List.cons.injEq] at h
  exact h.1

theorem serL_cons_shape (y : Json) (ys : List Json) :
    ∃ w, serL (y :: ys) = ser y ++ w := by
  cases ys with
  | nil => exact ⟨[], by simp [serL]⟩
  | cons z zs => exact ⟨',' :: serL (z :: zs), by simp [serL]⟩

theorem serP_cons_shape (q : String × Json) (qs : List (String × Json)) :
    ∃ w, serP (q :: qs) = serStrChars q.1 ++ ':' :: (ser q.2 ++ w) := by
  obtain ⟨k, v⟩ := q
  cases qs with
  | nil => exact ⟨[], by simp [serP]⟩
  | cons z zs => exact ⟨',' :: serP (z :: zs), by simp [serP]⟩

theorem serL_boundary : ∀ xs : List Json,
    (∀ x, x ∈ xs → ∀ b r1 r2, goodTail r1 → goodTail r2 →
      ser x ++ r1 = ser b ++ r2 → x = b ∧ r1 = r2) →
    ∀ ys r1 r2, serL xs ++ ']' :: r1 = serL ys ++ ']' :: r2 → xs = ys ∧ r1 = r2
  | [], _, [], r1, r2 => by
      intro h
      simp only [serL, List.nil_append, List.cons.injEq] at h
      exact ⟨rfl, h.2⟩
  | [], _, y :: ys, r1, r2 => by
      intro h
      obtain ⟨w, hw⟩ := serL_cons_shape y ys
      obtain ⟨c, t, e, vs⟩ := ser_head y
      rw [hw, e] at h
      simp only [serL, List.nil_append, List.cons_append, List.append_assoc,
        List.cons.injEq] at h
      rw [← h.1] at vs
      exact absurd vs (by decide)
  | x :: xs, _, [], r1, r2 => by
      intro h
      obtain ⟨w, hw⟩ := serL_cons_shape x xs
      obtain ⟨c, t, e, vs⟩ := ser_head x
      rw [hw, e] at h
      simp only [serL, List.nil_append, List.cons_append, List.append_assoc,
        List.cons.injEq] at h
      rw [h.1] at vs
      exact absurd vs (by decide)
  | [x], IH, [y], r1, r2 => by
      intro h
      simp only [serL] at h
      have := IH x (List.mem_cons_self x []) y (']' :: r1) (']' :: r2)
        (goodTail_rbracket r1) (goodTail_rbracket r2) (by simpa using h)
      obtain ⟨he, ht⟩ := this
      simp only [List.cons.injEq] at ht
      exact ⟨by rw [he], ht.2⟩
  | [x], IH, y :: z :: zs, r1, r2 => by
      intro h
      simp only [serL, List.cons_append, List.append_assoc] at h
      have := IH x (List.mem_cons_self x []) y (']' :: r1) (',' :: (serL (z :: zs) ++ ']' :: r2))
        (goodTail_rbracket r1) (goodTail_comma _) (by simpa using h)
      obtain ⟨-, ht⟩ := this
      simp only [List.cons.injEq] at ht
      exact absurd ht.1 (by decide)
  | x :: w :: ws, IH, [y], r1, r2 => by
      intro h
      simp only [serL, List.cons_append, List.append_assoc] at h
      have := IH x (List.mem_cons_self x _) y (',' :: (serL (w :: ws) ++ ']' :: r1)) (']' :: r2)
        (goodTail_comma _) (goodTail_rbracket r2) (by simpa using h)
      obtain ⟨-, ht⟩ := this
      simp only [List.cons.injEq] at ht
      exact absurd ht.1 (by decide)
  | x :: w :: ws, IH, y :: z :: zs, r1, r2 => by
      intro h
      simp only [serL, List.cons_append, List.append_assoc] at h
      have := IH x (List.mem_cons_self x _) y
        (',' :: (serL (w :: ws) ++ ']' :: r1)) (',' :: (serL (z :: zs) ++ ']' :: r2))
        (goodTail_comma _) (goodTail_comma _) (by simpa using h)
      obtain ⟨he, ht⟩ := this
      simp only [List.cons.injEq] at ht
      have := serL_boundary (w :: ws) (fun u hu => IH u (List.mem_cons_of_mem _ hu))
        (z :: zs) r1 r2 ht.2
      exact ⟨by rw [he, this.1], this.2⟩

theorem serP_boundary : ∀ ps : List (String × Json),
    (∀ kv, kv ∈ ps → ∀ b r1 r2, goodTail r1 → goodTail r2 →
      ser kv.2 ++ r1 = ser b ++ r2 → kv.2 = b ∧ r1 = r2) →
    ∀ qs r1 r2, serP ps ++ '\x7d' :: r1 = serP qs ++ '\x7d' :: r2 → ps = qs ∧ r1 = r2
  | [], _, [], r1, r2 => by
      intro h
      simp only [serP, List.nil_append, List.cons.injEq] at h
      exact ⟨rfl, h.2⟩
  | [], _, (k, v) :: qs, r1, r2 => by
      intro h
      obtain ⟨w, hw⟩ := serP_cons_shape (k, v) qs
      rw [hw] at h
      simp only [serP, serStrChars, List.nil_append, List.cons_append, List.append_assoc,
        List.cons.injEq] at h
      exact absurd h.1 (by decide)
  | (k, v) :: ps, _, [], r1, r2 => by
      intro h
      obtain ⟨w, hw⟩ := serP_cons_shape (k, v) ps
      rw [hw] at h
      simp only [serP, serStrChars, List.nil_append, List.cons_append, List.append_assoc,
        List.cons.injEq] at h
      exact absurd h.1 (by decide)
  | (k1, v1) :: ps, IH, (k2, v2) :: qs, r1, r2 => by
      intro h
      have hmem : ((k1, v1) : String × Json) ∈ (k1, v1) :: ps := List.mem_cons_self _ _
      rcases ps with _ | ⟨p, ps'⟩ <;> rcases qs with _ | ⟨q, qs'⟩
      · simp only [serP, List.cons_append, List.append_assoc] at h
        obtain ⟨rfl, ht⟩ := serStr_boundary h
        simp only [List.cons.injEq, true_and] at ht
        have := IH (k1, v1) hmem v2 ('\x7d' :: r1) ('\x7d' :: r2)
          (goodTail_rbrace r1) (goodTail_rbrace r2) ht
        obtain ⟨he, ht2⟩ := this
        have he' : v1 = v2 := he
        simp only [List.cons.injEq, true_and] at ht2
        exact ⟨by rw [he'], ht2⟩
      · simp only [serP, List.cons_append, List.append_assoc] at h
        obtain ⟨rfl, ht⟩ := serStr_boundary h
        simp only [List.cons.injEq, true_and] at ht
        have := IH (k1, v1) hmem v2 ('\x7d' :: r1)
          (',' :: (serP (q :: qs') ++ '\x7d' :: r2))
          (goodTail_rbrace r1) (goodTail_comma _) (by simpa using ht)
        obtain ⟨-, ht2⟩ := this
        simp only [List.cons.injEq] at ht2
        exact absurd ht2.1 (by decide)
      · simp only [serP, List.cons_append, List.append_assoc] at h
        obtain ⟨rfl, ht⟩ := serStr_boundary h
        simp only [List.cons.injEq, true_and] at ht
        have := IH (k1, v1) hmem v2 (',' :: (serP (p :: ps') ++ '\x7d' :: r1))
          ('\x7d' :: r2) (goodTail_comma _) (goodTail_rbrace r2) (by simpa using ht)
        obtain ⟨-, ht2⟩ := this
        simp only [List.cons.injEq] at ht2
        exact absurd ht2.1 (by decide)
      · simp only [serP, List.cons_append, List.append_assoc] at h
        obtain ⟨rfl, ht⟩ := serStr_boundary h
        simp only [List.cons.injEq, true_and] at ht
        have := IH (k1, v1) hmem v2 (',' :: (serP (p :: ps') ++ '\x7d' :: r1))
          (',' :: (serP (q :: qs') ++ '\x7d' :: r2))
          (goodTail_comma _) (goodTail_comma _) (by simpa using ht)
        obtain ⟨he, ht2⟩ := this
        simp only [List.cons.injEq, true_and] at ht2
        have he' : v1 = v2 := he
        have := serP_boundary (p :: ps') (fun u hu => IH u (List.mem_cons_of_mem _ hu))
          (q :: qs') r1 r2 ht2
        exact ⟨by rw [he', this.1], this.2⟩

theorem ser_prefix : ∀ a b : Json, ∀ r1 r2 : List Char, goodTail r1 → goodTail r2 →
    ser a ++ r1 = ser b ++ r2 → a = b ∧ r1 = r2 := by
  have main : ∀ a : Json, ∀ b r1 r2, goodTail r1 → goodTail r2 →
      ser a ++ r1 = ser b ++ r2 → a = b ∧ r1 = r2 := by
    intro a
    induction a using Json.indMem with
    | hnull =>
        intro b r1 r2 _ _ h
        cases b with
        | null =>
            simp only [ser, List.cons_append, List.nil_append, List.cons.injEq] at h
            exact ⟨rfl, h.2.2.2.2⟩
        | bool tb =>
            cases tb <;> exact absurd (ser_append_head_eq h rfl rfl) (by decide)
        | num n =>
            cases n with
            | ofNat m =>
                obtain ⟨c, t, hct, hd⟩ := natChars_head m
                have e2 : ser (.num (Int.ofNat m)) = c :: t := by simp [ser, intChars, hct]
                have := ser_append_head_eq h rfl e2
                rw [← this] at hd
                exact absurd hd (by decide)
            | negSucc m =>
                have e2 : ser (.num (Int.negSucc m)) = '-' :: natChars (m + 1) := by
                  simp [ser, intChars]
                exact absurd (ser_append_head_eq h rfl e2) (by decide)
        | str s => exact absurd (ser_append_head_eq h rfl rfl) (by decide)
        | arr xs => exact absurd (ser_append_head_eq h rfl rfl) (by decide)
        | obj ps => exact absurd (ser_append_head_eq h rfl rfl) (by decide)
    | hbool ba =>
        intro b r1 r2 _ _ h
        cases b with
        | null => cases ba <;> exact absurd (ser_append_head_eq h rfl rfl) (by decide)
        | bool bb =>
            cases ba <;> cases bb
            · simp only [ser, List.cons_append, List.nil_append, List.cons.injEq] at h
              exact ⟨rfl, h.2.2.2.2.2⟩
            · exact absurd (ser_append_head_eq h rfl rfl) (by decide)
            · exact absurd (ser_append_head_eq h rfl rfl) (by decide)
            · simp only [ser, List.cons_append, List.nil_append, List.cons.injEq] at h
              exact ⟨rfl, h.2.2.2.2⟩
        | num n =>
            cases n with
            | ofNat m =>
                obtain ⟨c, t, hct, hd⟩ := natChars_head m
                have e2 : ser (.num (Int.ofNat m)) = c :: t := by simp [ser, intChars, hct]
                cases ba <;>
                  · have := ser_append_head_eq h rfl e2
                    rw [← this] at hd
                    exact absurd hd (by decide)
            | negSucc m =>
                have e2 : ser (.num (Int.negSucc m)) = '-' :: natChars (m + 1) := by
                  simp [ser, intChars]
                cases ba <;> exact absurd (ser_append_head_eq h rfl e2) (by decide)
        | str s => cases ba <;> exact absurd (ser_append_head_eq h rfl rfl) (by decide)
        | arr xs => cases ba <;> exact absurd (ser_append_head_eq h rfl rfl) (by decide)
        | obj ps => cases ba <;> exact absurd (ser_append_head_eq h rfl rfl) (by decide)
    | hnum na =>
        intro b r1 r2 g1 g2 h
        cases b with
        | num nb =>
            simp only [ser] at h
            have := intChars_boundary na nb r1 r2 g1 g2 h
            exact ⟨by rw [this.1], this.2⟩
        | null =>
            cases na with
            | ofNat m =>
                obtain ⟨c, t, hct, hd⟩ := natChars_head m
                have e1 : ser (.num (Int.ofNat m)) = c :: t := by simp [ser, intChars, hct]
                have := ser_append_head_eq h e1 rfl
                rw [this] at hd
                exact absurd hd (by decide)
            | negSucc m =>
                have e1 : ser (.num (Int.negSucc m)) = '-' :: natChars (m + 1) := by
                  simp [ser, intChars]
                exact absurd (ser_append_head_eq h e1 rfl) (by decide)
        | bool bb =>
            cases na with
            | ofNat m =>
                obtain ⟨c, t, hct, hd⟩ := natChars_head m
                have e1 : ser (.num (Int.ofNat m)) = c :: t := by simp [ser, intChars, hct]
                cases bb <;>
                  · have := ser_append_head_eq h e1 rfl
                    rw [this] at hd
                    exact absurd hd (by decide)
            | negSucc m =>
                have e1 : ser (.num (Int.negSucc m)) = '-' :: natChars (m + 1) := by
                  simp [ser, intChars]
                cases bb <;> exact absurd (ser_append_head_eq h e1 rfl) (by decide)
        | str s =>
            cases na with
            | ofNat m =>
                obtain ⟨c, t, hct, hd⟩ := natChars_head m
                have e1 : ser (.num (Int.ofNat m)) = c :: t := by simp [ser, intChars, hct]
                have := ser_append_head_eq h e1 rfl
                rw [this] at hd
                exact absurd hd (by decide)
            | negSucc m =>
                have e1 : ser (.num (Int.negSucc m)) = '-' :: natChars (m + 1) := by
                  simp [ser, intChars]
                exact absurd (ser_append_head_eq h e1 rfl) (by decide)
        | arr xs =>
            cases na with
            | ofNat m =>
                obtain ⟨c, t, hct, hd⟩ := natChars_head m
                have e1 : ser (.num (Int.ofNat m)) = c :: t := by simp [ser, intChars, hct]
                have := ser_append_head_eq h e1 rfl
                rw [this] at hd
                exact absurd hd (by decide)
            | negSucc m =>
                have e1 : ser (.num (Int.negSucc m)) = '-' :: natChars (m + 1) := by
                  simp [ser, intChars]
                exact absurd (ser_append_head_eq h e1 rfl) (by decide)
        | obj ps =>
            cases na with
            | ofNat m =>
                obtain ⟨c, t, hct, hd⟩ := natChars_head m
                have e1 : ser (.num (Int.ofNat m)) = c :: t := by simp [ser, intChars, hct]
                have := ser_append_head_eq h e1 rfl
                rw [this] at hd
                exact absurd hd (by decide)
            | negSucc m =>
                have e1 : ser (.num (Int.negSucc m)) = '-' :: natChars (m + 1) := by
                  simp [ser, intChars]
                exact absurd (ser_append_head_eq h e1 rfl) (by decide)
    | hstr sa =>
        intro b r1 r2 _ _ h
        cases b with
        | str sb =>
            simp only [ser] at h
            have := serStr_boundary h
            exact ⟨by rw [this.1], this.2⟩
        | null => exact absurd (ser_append_head_eq h rfl rfl) (by decide)
        | bool bb => cases bb <;> exact absurd (ser_append_head_eq h rfl rfl) (by decide)
        | num n =>
            cases n with
            | ofNat m =>
                obtain ⟨c, t, hct, hd⟩ := natChars_head m
                have e2 : ser (.num (Int.ofNat m)) = c :: t := by simp [ser, intChars, hct]
                have := ser_append_head_eq h rfl e2
                rw [← this] at hd
                exact absurd hd (by decide)
            | negSucc m =>
                have e2 : ser (.num (Int.negSucc m)) = '-' :: natChars (m + 1) := by
                  simp [ser, intChars]
                exact absurd (ser_append_head_eq h rfl e2) (by decide)
        | arr xs => exact absurd (ser_append_head_eq h rfl rfl) (by decide)
        | obj ps => exact absurd (ser_append_head_eq h rfl rfl) (by decide)
    | harr xs IH =>
        intro b r1 r2 _ _ h
        cases b with
        | arr ys =>
            simp only [ser, List.cons_append, List.append_assoc, List.cons.injEq,
              List.singleton_append, true_and] at h
            have := serL_boundary xs IH ys r1 r2 (by simpa using h)
            exact ⟨by rw [this.1], this.2⟩
        | null => exact absurd (ser_append_head_eq h rfl rfl) (by decide)
        | bool bb => cases bb <;> exact absurd (ser_append_head_eq h rfl rfl) (by decide)
        | num n =>
            cases n with
            | ofNat m =>
                obtain ⟨c, t, hct, hd⟩ := natChars_head m
                have e2 : ser (.num (Int.ofNat m)) = c :: t := by simp [ser, intChars, hct]
                have := ser_append_head_eq h rfl e2
                rw [← this] at hd
                exact absurd hd (by decide)
            | negSucc m =>
                have e2 : ser (.num (Int.negSucc m)) = '-' :: natChars (m + 1) := by
                  simp [ser, intChars]
                exact absurd (ser_append_head_eq h rfl e2) (by decide)
        | str s => exact absurd (ser_append_head_eq h rfl rfl) (by decide)
        | obj ps => exact absurd (ser_append_head_eq h rfl rfl) (by decide)
    | hobj ps IH =>
        intro b r1 r2 _ _ h
        cases b with
        | obj qs =>
            simp only [ser, List.cons_append, List.append_assoc, List.cons.injEq,
              List.singleton_append, true_and] at h
            have := serP_boundary ps IH qs r1 r2 (by simpa using h)
            exact ⟨by rw [this.1], this.2⟩
        | null => exact absurd (ser_append_head_eq h rfl rfl) (by decide)
        | bool bb => cases bb <;> exact absurd (ser_append_head_eq h rfl rfl) (by decide)
        | num n =>
            cases n with
            | ofNat m =>
                obtain ⟨c, t, hct, hd⟩ := natChars_head m
                have e2 : ser (.num (Int.ofNat m)) = c :: t := by simp [ser, intChars, hct]
                have := ser_append_head_eq h rfl e2
                rw [← this] at hd
                exact absurd hd (by decide)
            | negSucc m =>
                have e2 : ser (.num (Int.negSucc m)) = '-' :: natChars (m + 1) := by
                  simp [ser, intChars]
                exact absurd (ser_append_head_eq h rfl e2) (by decide)
        | str s => exact absurd (ser_append_head_eq h rfl rfl) (by decide)
        | arr ys => exact absurd (ser_append_head_eq h rfl rfl) (by decide)
  exact main

theorem ser_inj {a b : Json} (h : ser a = ser b) : a = b := by
  have := ser_prefix a b [] [] goodTail_nil goodTail_nil (by simpa using h)
  exact this.1

theorem stringify_inj {a b : Json} (h : stringify a = stringify b) : a = b := by
  unfold stringify at h
  exact ser_inj (by injection h)

theorem insertionSort_perm_eq {α : Type} (le : α → α → Bool)
    (htrans : ∀ a b c, le a b = true → le b c = true → le a c = true)
    (htotal : ∀ a b, le a b = true ∨ le b a = true)
    (hanti : ∀ a b, le a b = true → le b a = true → a = b)
    {l1 l2 : List α} (hp : l1.Perm l2) :
    List.insertionSort (fun a b => le a b) l1 =
      List.insertionSort (fun a b => le a b) l2 := by
  haveI h1 : IsTotal α (fun a b => le a b = true) := ⟨htotal⟩
  haveI h2 : IsTrans α (fun a b => le a b = true) := ⟨htrans⟩
  haveI h3 : IsAntisymm α (fun a b => le a b = true) := ⟨hanti⟩
  apply List.eq_of_perm_of_sorted (r := fun a b => le a b = true)
  · exact (List.perm_insertionSort _ l1).trans (hp.trans (List.perm_insertionSort _ l2).symm)
  · exact List.sorted_insertionSort _ l1
  · exact List.sorted_insertionSort _ l2

theorem keyLe_trans (a b c : Json) (h1 : keyLe a b = true)
    (h2 : keyLe b c = true) : keyLe a c = true :=
  strLeB_trans h1 h2

theorem keyLe_total (a b : Json) : keyLe a b = true ∨ keyLe b a = true :=
  strLeB_total _ _

theorem keyLe_antisymm (a b : Json) (h1 : keyLe a b = true)
    (h2 : keyLe b a = true) : a = b :=
  stringify_inj (strLeB_antisymm h1 h2)

theorem sortJsonL_eq_map (mode : Mode) : ∀ xs, sortJsonL mode xs = xs.map (sortJson mode)
  | [] => rfl
  | x :: xs => by simp [sortJsonL, sortJsonL_eq_map mode xs]

theorem sortJsonP_eq_map (mode : Mode) :
    ∀ ps, sortJsonP mode ps = ps.map (fun p => (p.1, sortJson mode p.2))
  | [] => rfl
  | (k, v) :: ps => by simp [sortJsonP, sortJsonP_eq_map mode ps]

theorem sortJson_full_eq_of_MEq : ∀ {j1 j2 : Json}, MEq j1 j2 →
    sortJson .full j1 = sortJson .full j2 := by
  intro j1 j2 h
  induction h with
  | refl j => rfl
  | symm _ ih => exact ih.symm
  | trans _ _ ih1 ih2 => exact ih1.trans ih2
  | perm xs ys hp =>
      simp only [sortJson, sortJsonL_eq_map, if_pos rfl]
      exact congrArg Json.arr
        (insertionSort_perm_eq keyLe keyLe_trans keyLe_total keyLe_antisymm (hp.map _))
  | congrArr xs ys hlen h ih =>
      have hm : xs.map (sortJson .full) = ys.map (sortJson .full) := by
        apply List.ext_getElem (by simpa using hlen)
        intro n h1 h2
        simp only [List.getElem_map]
        have := ih n
        rwa [List.getD_eq_getElem _ _ (by simpa using h1),
          List.getD_eq_getElem _ _ (by simpa using h2)] at this
      simp only [sortJson, sortJsonL_eq_map, hm]
  | congrObj ps qs hlen hk hv ih =>
      have hm : ps.map (fun p => (p.1, sortJson .full p.2)) =
          qs.map (fun p => (p.1, sortJson .full p.2)) := by
        apply List.ext_getElem (by simpa using hlen)
        intro n h1 h2
        simp only [List.getElem_map]
        have hkn := hk n
        have hvn := ih n
        rw [List.getD_eq_getElem _ _ (by simpa using h1),
          List.getD_eq_getElem _ _ (by simpa using h2)] at hkn hvn
        exact Prod.ext hkn hvn
      simp only [sortJson, sortJsonP_eq_map, hm]

theorem lookup_mem {α β : Type} [BEq α] [LawfulBEq α] :
    ∀ {ps : List (α × β)} {k : α} {v : β},
    ps.lookup k = some v → (k, v) ∈ ps
  | [], k, v, h => by simp [List.lookup] at h
  | (k', v') :: ps, k, v, h => by
      rw [List.lookup_cons] at h
      by_cases hk : k = k'
      · subst hk
        simp at h
        subst h
        exact List.mem_cons_self _ _
      · simp only [beq_false_of_ne hk] at h
        exact List.mem_cons_of_mem _ (lookup_mem h)

theorem jsize_pos : ∀ j : Json, 1 ≤ jsize j
  | .null => le_refl 1
  | .bool _ => le_refl 1
  | .num _ => le_refl 1
  | .str _ => le_refl 1
  | .arr xs => by simp [jsize]
  | .obj ps => by simp [jsize]

theorem jsizeL_lt_of_mem : ∀ {xs : List Json} {x : Json}, x ∈ xs → jsize x < jsizeL xs
  | y :: ys, x, h => by
      rcases List.mem_cons.mp h with h | h
      · subst h
        simp [jsizeL]
        omega
      · have := jsizeL_lt_of_mem h
        simp [jsizeL]
        omega

theorem jsizeP_lt_of_mem : ∀ {ps : List (String × Json)} {k : String} {v : Json},
    (k, v) ∈ ps → jsize v < jsizeP ps
  | (k', v') :: ps, k, v, h => by
      rcases List.mem_cons.mp h with h | h
      · rw [Prod.mk.injEq] at h
        rw [h.2]
        simp [jsizeP]
        omega
      · have := jsizeP_lt_of_mem h
        simp [jsizeP]
        omega

theorem fdGo_stable : ∀ j1 : Json, ∀ (j2 : Json) (f1 f2 : Nat) (p : String),
    jsize j1 + jsize j2 ≤ f1 → jsize j1 + jsize j2 ≤ f2 →
    fdGo f1 j1 j2 p = fdGo f2 j1 j2 p := by
  intro j1
  induction j1 using Json.indMem with
  | hnull =>
      intro j2 f1 f2 p h1 h2
      have u1 := jsize_pos j2
      rcases f1 with _ | f1
      · omega
      rcases f2 with _ | f2
      · omega
      cases j2 <;> rfl
  | hbool b =>
      intro j2 f1 f2 p h1 h2
      have u1 := jsize_pos j2
      rcases f1 with _ | f1
      · omega
      rcases f2 with _ | f2
      · omega
      cases j2 <;> rfl
  | hnum n =>
      intro j2 f1 f2 p h1 h2
      have u1 := jsize_pos j2
      rcases f1 with _ | f1
      · omega
      rcases f2 with _ | f2
      · omega
      cases j2 <;> rfl
  | hstr s =>
      intro j2 f1 f2 p h1 h2
      have u1 := jsize_pos j2
      rcases f1 with _ | f1
      · omega
      rcases f2 with _ | f2
      · omega
      cases j2 <;> rfl
  | harr xs IH =>
      intro j2 f1 f2 p h1 h2
      have u1 := jsize_pos j2
      rcases f1 with _ | f1
      · omega
      rcases f2 with _ | f2
      · omega
      cases j2 with
      | arr ys =>
          simp only [fdGo]
          congr 1
          apply List.flatMap_congr
          intro i hi
          have hi' : i < min xs.length ys.length := List.mem_range.mp hi
          have hx : xs.getD i .null ∈ xs := by
            rw [List.getD_eq_getElem _ _ (by omega)]
            exact List.getElem_mem _
          have hy : ys.getD i .null ∈ ys := by
            rw [List.getD_eq_getElem _ _ (by omega)]
            exact List.getElem_mem _
          have b1 := jsizeL_lt_of_mem hx
          have b2 := jsizeL_lt_of_mem hy
          simp only [jsize] at h1 h2
          exact IH _ hx _ f1 f2 _ (by omega) (by omega)
      | null => rfl
      | bool b => rfl
      | num n => rfl
      | str s => rfl
      | obj ps => rfl
  | hobj ps IH =>
      intro j2 f1 f2 p h1 h2
      have u1 := jsize_pos j2
      rcases f1 with _ | f1
      · omega
      rcases f2 with _ | f2
      · omega
      cases j2 with
      | obj qs =>
          simp only [fdGo]
          apply List.flatMap_congr
          intro k hk
          rcases hl1 : ps.lookup k with _ | v1 <;> rcases hl2 : qs.lookup k with _ | v2
          · rfl
          · rfl
          · rfl
          · have m1 := lookup_mem hl1
            have m2 := lookup_mem hl2
            have b1 := jsizeP_lt_of_mem m1
            have b2 := jsizeP_lt_of_mem m2
            simp only [jsize] at h1 h2
            have hred : jsize ((k, v1) : String × Json).2 = jsize v1 := rfl
            exact IH (k, v1) m1 v2 f1 f2 _ (by omega) (by omega)
      | null => rfl
      | bool b => rfl
      | num n => rfl
      | str s => rfl
      | arr ys => rfl

theorem findDifferences_arr (l1 l2 : List Json) (path : String) :
    findDifferences (.arr l1) (.arr l2) path =
      (List.range (min l1.length l2.length)).flatMap
        (fun i => findDifferences (l1.getD i .null) (l2.getD i .null) (idxPath path i)) ++
      extraItems l1.length l2.length path := by
  unfold findDifferences
  have hs : jsize (Json.arr l1) + jsize (Json.arr l2) = (1 + jsizeL l1 + jsizeL l2) + 1 := by
    simp [jsize]
    omega
  rw [hs]
  simp only [fdGo]
  congr 1
  apply List.flatMap_congr
  intro i hi
  have hi' := List.mem_range.mp hi
  have hx : l1.getD i .null ∈ l1 := by
    rw [List.getD_eq_getElem _ _ (by omega)]
    exact List.getElem_mem _
  have hy : l2.getD i .null ∈ l2 := by
    rw [List.getD_eq_getElem _ _ (by omega)]
    exact List.getElem_mem _
  have b1 := jsizeL_lt_of_mem hx
  have b2 := jsizeL_lt_of_mem hy
  exact fdGo_stable _ _ _ _ _ (by omega) (by omega)

theorem findDifferences_obj (ps1 ps2 : List (String × Json)) (path : String) :
    findDifferences (.obj ps1) (.obj ps2) path =
      (unionKeys ps1 ps2).flatMap (fun k =>
        match ps1.lookup k, ps2.lookup k with
        | none, _ => [keyMsg (keyPath path k) "second"]
        | some _, none => [keyMsg (keyPath path k) "first"]
        | some v1, some v2 => findDifferences v1 v2 (keyPath path k)) := by
  unfold findDifferences
  have hs : jsize (Json.obj ps1) + jsize (Json.obj ps2) = (1 + jsizeP ps1 + jsizeP ps2) + 1 := by
    simp [jsize]
    omega
  rw [hs]
  simp only [fdGo]
  apply List.flatMap_congr
  intro k hk
  rcases hl1 : ps1.lookup k with _ | v1 <;> rcases hl2 : ps2.lookup k with _ | v2
  · rfl
  · rfl
  · rfl
  · have m1 := lookup_mem hl1
    have m2 := lookup_mem hl2
    have b1 := jsizeP_lt_of_mem m1
    have b2 := jsizeP_lt_of_mem m2
    exact fdGo_stable _ _ _ _ _ (by omega) (by omega)

theorem extraItems_self (n : Nat) (path : String) : extraItems n n path = [] := by
  simp [extraItems]

theorem mem_dedupFirst_iff {α : Type} [DecidableEq α] :
    ∀ (l acc : List α) (x : α),
      (x ∈ l.foldl (fun acc k => if k ∈ acc then acc else acc ++ [k]) acc) ↔
        x ∈ acc ∨ x ∈ l
  | [], acc, x => by simp
  | k :: l, acc, x => by
      rw [List.foldl_cons, mem_dedupFirst_iff l _ x]
      by_cases hk : k ∈ acc
      · simp only [if_pos hk, List.mem_cons]
        constructor
        · tauto
        · rintro (h | rfl | h) <;> tauto
      · simp only [if_neg hk, List.mem_append, List.mem_cons, List.mem_singleton]
        constructor
        · tauto
        · tauto

theorem mem_dedupFirst {α : Type} [DecidableEq α] {l : List α} {x : α} :
    x ∈ dedupFirst l ↔ x ∈ l := by
  unfold dedupFirst
  rw [mem_dedupFirst_iff]
  simp

theorem mem_unionKeys {ps1 ps2 : List (String × Json)} {k : String}
    (h : k ∈ unionKeys ps1 ps2) : k ∈ ps1.map Prod.fst ∨ k ∈ ps2.map Prod.fst := by
  unfold unionKeys at h
  have := (List.perm_insertionSort (fun a b => strLeB a b)
    (dedupFirst (ps1.map Prod.fst ++ ps2.map Prod.fst))).mem_iff.mp h
  rw [mem_dedupFirst, List.mem_append] at this
  exact this

theorem lookup_isSome_of_mem_keys {β : Type} :
    ∀ {ps : List (String × β)} {k : String}, k ∈ ps.map Prod.fst →
      ∃ v, ps.lookup k = some v
  | [], k, h => by simp at h
  | (k', v') :: ps, k, h => by
      by_cases hk : k = k'
      · subst hk
        exact ⟨v', by simp [List.lookup_cons]⟩
      · rw [List.map_cons, List.mem_cons] at h
        rcases h with h | h
        · exact absurd h hk
        · obtain ⟨v, hv⟩ := lookup_isSome_of_mem_keys h
          exact ⟨v, by simp [List.lookup_cons, beq_false_of_ne hk, hv]⟩

theorem flatMap_nil_of {α β : Type} {l : List α} {f : α → List β}
    (h : ∀ x ∈ l, f x = []) : l.flatMap f = [] := by
  induction l with
  | nil => rfl
  | cons x xs ih =>
      rw [List.flatMap_cons, h x (List.mem_cons_self x xs), List.nil_append]
      exact ih (fun y hy => h y (List.mem_cons_of_mem x hy))

theorem findDifferences_refl : ∀ j : Json, ∀ path, findDifferences j j path = [] := by
  intro j
  induction j using Json.indMem with
  | hnull => intro path; rfl
  | hbool b => intro path; cases b <;> rfl
  | hnum n =>
      intro path
      show fdGo (jsize (Json.num n) + jsize (Json.num n)) (.num n) (.num n) path = []
      simp [fdGo, jsize, strictEq]
  | hstr s =>
      intro path
      show fdGo (jsize (Json.str s) + jsize (Json.str s)) (.str s) (.str s) path = []
      simp [fdGo, jsize, strictEq]
  | harr xs IH =>
      intro path
      rw [findDifferences_arr, extraItems_self, List.append_nil]
      apply flatMap_nil_of
      intro i hi
      have hi' := List.mem_range.mp hi
      rw [Nat.min_self] at hi'
      have hx : xs.getD i .null ∈ xs := by
        rw [List.getD_eq_getElem _ _ hi']
        exact List.getElem_mem _
      exact IH _ hx _
  | hobj ps IH =>
      intro path
      rw [findDifferences_obj]
      apply flatMap_nil_of
      intro k hk
      have hmem : k ∈ ps.map Prod.fst := by
        rcases mem_unionKeys hk with h | h <;> exact h
      obtain ⟨v, hv⟩ := lookup_isSome_of_mem_keys hmem
      rw [hv]
      exact IH (k, v) (lookup_mem hv) _

end JsonComparator

namespace XmlComparator

mutual

theorem NNode.recMem {motive : NNode → Prop} (htext : ∀ s, motive (.text s))
    (helem : ∀ t a cs, (∀ c, c ∈ cs → motive c) → motive (.elem t a cs)) :
    ∀ n, motive n
  | .text s => htext s
  | .elem t a cs => helem t a cs (NNode.recMemL htext helem cs)

theorem NNode.recMemL {motive : NNode → Prop} (htext : ∀ s, motive (.text s))
    (helem : ∀ t a cs, (∀ c, c ∈ cs → motive c) → motive (.elem t a cs)) :
    ∀ cs : List NNode, ∀ c, c ∈ cs → motive c
  | y :: ys => fun c hc => by
      rcases List.mem_cons.mp hc with h | h
      · rw [h]
        exact NNode.recMem htext helem y
      · exact NNode.recMemL htext helem ys c h
  | [] => fun c hc => absurd hc (List.not_mem_nil c)

end

theorem diffChildren_refl :
    ∀ cs : List NNode, (∀ c, c ∈ cs → ∀ path, diff c c path = []) →
      ∀ path, diffChildren cs cs path = []
  | [], _, path => rfl
  | x :: xs, IH, path => by
      rw [diffChildren, IH x (List.mem_cons_self x xs), List.nil_append]
      exact diffChildren_refl xs (fun c hc => IH c (List.mem_cons_of_mem x hc)) path

theorem diff_refl : ∀ n : NNode, ∀ path, diff n n path = [] := by
  intro n
  induction n using NNode.recMem with
  | htext s => intro path; simp [diff]
  | helem t a cs IH =>
      intro path
      rw [diff]
      rw [diffChildren_refl cs IH path]
      simp [List.drop_length]

end XmlComparator

namespace CsvComparator

theorem lookup_map_bump (s : Row) :
    ∀ m : List (Row × Nat), ∀ r : Row,
      (m.map (fun p => if p.1 = s then (p.1, p.2 + 1) else p)).lookup r =
        (m.lookup r).map (fun n => if r = s then n + 1 else n)
  | [], r => rfl
  | (k, v) :: m, r => by
      by_cases hks : k = s <;> by_cases hrk : r = k
      · simp only [List.map_cons, if_pos hks, List.lookup_cons]
        have hbeq : (r == k) = true := by simp [hrk]
        simp only [hbeq]
        simp [if_pos (hrk.trans hks)]
      · simp only [List.map_cons, if_pos hks, List.lookup_cons, beq_false_of_ne hrk]
        exact lookup_map_bump s m r
      · simp only [List.map_cons, if_neg hks, List.lookup_cons]
        have hbeq : (r == k) = true := by simp [hrk]
        simp only [hbeq]
        simp [if_neg (show ¬ r = s from fun h => hks (hrk.symm.trans h))]
      · simp only [List.map_cons, if_neg hks, List.lookup_cons, beq_false_of_ne hrk]
        exact lookup_map_bump s m r

theorem lookup_bump (m : List (Row × Nat)) (s r : Row) :
    ((bump m s).lookup r).getD 0 =
      if r = s then (m.lookup r).getD 0 + 1 else (m.lookup r).getD 0 := by
  unfold bump
  by_cases hs : (m.lookup s).isSome
  · rw [if_pos hs, lookup_map_bump]
    by_cases hrs : r = s
    · subst hrs
      obtain ⟨n, hn⟩ := Option.isSome_iff_exists.mp hs
      simp [hn]
    · simp only [if_neg hrs, hrs]
      cases m.lookup r <;> simp
  · rw [if_neg hs, List.lookup_append]
    by_cases hrs : r = s
    · subst hrs
      rw [Option.not_isSome_iff_eq_none] at hs
      simp [hs, List.lookup_cons]
    · have : List.lookup r [(s, 1)] = none := by
        simp [List.lookup_cons, beq_false_of_ne hrs]
      rw [this]
      cases m.lookup r <;> simp [hrs]

theorem foldl_bump_count :
    ∀ (rows : List Row) (m : List (Row × Nat)) (r : Row),
      (((rows.foldl (fun m x => bump m (toKey x)) m)).lookup r).getD 0 =
        (m.lookup r).getD 0 + rows.count r
  | [], m, r => by simp
  | x :: rows, m, r => by
      rw [List.foldl_cons, foldl_bump_count rows _ r, List.count_cons]
      unfold toKey
      rw [lookup_bump]
      by_cases hrx : r = x
      · subst hrx
        simp
        omega
      · simp [beq_false_of_ne (Ne.symm hrx), hrx]

theorem countRows_count (rows : List Row) (r : Row) :
    (((countRows rows)).lookup r).getD 0 = rows.count r := by
  unfold countRows
  rw [foldl_bump_count rows [] r]
  simp

theorem mem_keys_of_lookup_isSome {β : Type} {m : List (Row × β)} {k : Row}
    (h : (m.lookup k).isSome) : k ∈ m.map Prod.fst := by
  obtain ⟨v, hv⟩ := Option.isSome_iff_exists.mp h
  have := JsonComparator.lookup_mem hv
  exact List.mem_map.mpr ⟨(k, v), this, rfl⟩

theorem bump_keys_fst (m : List (Row × Nat)) (s : Row) :
    ∀ x, x ∈ (bump m s).map Prod.fst ↔ x ∈ m.map Prod.fst ∨ x = s := by
  intro x
  unfold bump
  by_cases hs : (m.lookup s).isSome
  · rw [if_pos hs]
    have hfst : (m.map (fun p => if p.1 = s then (p.1, p.2 + 1) else p)).map Prod.fst =
        m.map Prod.fst := by
      rw [List.map_map]
      apply List.map_congr_left
      intro p _
      by_cases h : p.1 = s <;> simp [h]
    rw [hfst]
    constructor
    · exact Or.inl
    · rintro (h | rfl)
      · exact h
      · exact mem_keys_of_lookup_isSome hs
  · rw [if_neg hs, List.map_append]
    simp

theorem foldl_bump_keys :
    ∀ (rows : List Row) (m : List (Row × Nat)) (x : Row),
      x ∈ ((rows.foldl (fun m r => bump m (toKey r)) m)).map Prod.fst ↔
        x ∈ m.map Prod.fst ∨ x ∈ rows
  | [], m, x => by simp
  | r0 :: rows, m, x => by
      rw [List.foldl_cons, foldl_bump_keys rows _ x, bump_keys_fst]
      unfold toKey
      simp only [List.mem_cons]
      tauto

theorem mem_countRows_keys {rows : List Row} {x : Row} :
    x ∈ (countRows rows).map Prod.fst ↔ x ∈ rows := by
  unfold countRows
  rw [foldl_bump_keys rows [] x]
  simp

theorem nodup_dedupFirst_go {α : Type} [DecidableEq α] :
    ∀ (l acc : List α), acc.Nodup →
      (l.foldl (fun acc k => if k ∈ acc then acc else acc ++ [k]) acc).Nodup
  | [], acc, h => h
  | k :: l, acc, h => by
      rw [List.foldl_cons]
      by_cases hk : k ∈ acc
      · rw [if_pos hk]
        exact nodup_dedupFirst_go l acc h
      · rw [if_neg hk]
        apply nodup_dedupFirst_go l
        rw [List.nodup_append]
        refine ⟨h, List.nodup_singleton k, ?_⟩
        intro a ha
        simp only [List.mem_singleton]
        intro hak
        exact hk (hak ▸ ha)

theorem nodup_dedupFirst {α : Type} [DecidableEq α] (l : List α) : (dedupFirst l).Nodup :=
  nodup_dedupFirst_go l [] List.nodup_nil

theorem sum_map_single :
    ∀ (l : List Row), l.Nodup → ∀ (g : Row → Nat) (r : Row),
      (∀ k ∈ l, k ≠ r → g k = 0) → (l.map g).sum = if r ∈ l then g r else 0
  | [], _, g, r, _ => by simp
  | k :: l, hnd, g, r, hg => by
      rw [List.nodup_cons] at hnd
      rw [List.map_cons, List.sum_cons,
        sum_map_single l hnd.2 g r (fun x hx hne => hg x (List.mem_cons_of_mem k hx) hne)]
      by_cases hkr : k = r
      · subst hkr
        rw [if_neg hnd.1, if_pos (List.mem_cons_self k l)]
        omega
      · rw [hg k (List.mem_cons_self k l) hkr]
        simp only [List.mem_cons]
        by_cases hr : r ∈ l
        · rw [if_pos hr, if_pos (Or.inr hr)]
          omega
        · rw [if_neg hr, if_neg (by rintro (rfl | h); exacts [hkr rfl, hr h])]

theorem count_replicate_self (r : Row) (n : Nat) : (List.replicate n r).count r = n := by
  simp

theorem count_replicate_other {r k : Row} (n : Nat) (h : k ≠ r) :
    (List.replicate n k).count r = 0 := by
  rw [List.count_replicate]
  simp only [beq_iff_eq, if_neg h]

theorem count_diffRows_first (rows1 rows2 : List Row) (r : Row) :
    ((diffRows rows1 rows2).missingInFile2).count r = rows1.count r - rows2.count r := by
  unfold diffRows
  simp only [List.count_flatMap]
  set c1 := countRows rows1 with hc1
  set c2 := countRows rows2 with hc2
  set allKeys := dedupFirst (c1.map Prod.fst ++ c2.map Prod.fst) with hak
  have hnd : allKeys.Nodup := nodup_dedupFirst _
  have hz : ∀ k ∈ allKeys, k ≠ r →
      (List.count r ∘ fun k =>
        if (c2.lookup k).getD 0 < (c1.lookup k).getD 0 then
          List.replicate ((c1.lookup k).getD 0 - (c2.lookup k).getD 0) k
        else []) k = 0 := by
    intro k _ hkr
    simp only [Function.comp_apply]
    by_cases h : (c2.lookup k).getD 0 < (c1.lookup k).getD 0
    · rw [if_pos h]
      exact count_replicate_other _ hkr
    · rw [if_neg h]
      rfl
  rw [sum_map_single allKeys hnd _ r hz]
  by_cases hr : r ∈ allKeys
  · rw [if_pos hr]
    simp only [Function.comp_apply]
    rw [hc1, hc2, countRows_count, countRows_count]
    by_cases h : rows2.count r < rows1.count r
    · rw [if_pos h, count_replicate_self]
    · rw [if_neg h]
      simp only [List.count_nil]
      omega
  · rw [if_neg hr]
    have : r ∉ rows1 := by
      intro hmem
      apply hr
      rw [hak, JsonComparator.mem_dedupFirst, List.mem_append]
      exact Or.inl (mem_countRows_keys.mpr hmem)
    rw [List.count_eq_zero.mpr this]
    omega

theorem count_diffRows_second (rows1 rows2 : List Row) (r : Row) :
    ((diffRows rows1 rows2).missingInFile1).count r = rows2.count r - rows1.count r := by
  unfold diffRows
  simp only [List.count_flatMap]
  set c1 := countRows rows1 with hc1
  set c2 := countRows rows2 with hc2
  set allKeys := dedupFirst (c1.map Prod.fst ++ c2.map Prod.fst) with hak
  have hnd : allKeys.Nodup := nodup_dedupFirst _
  have hz : ∀ k ∈ allKeys, k ≠ r →
      (List.count r ∘ fun k =>
        if (c1.lookup k).getD 0 < (c2.lookup k).getD 0 then
          List.replicate ((c2.lookup k).getD 0 - (c1.lookup k).getD 0) k
        else []) k = 0 := by
    intro k _ hkr
    simp only [Function.comp_apply]
    by_cases h : (c1.lookup k).getD 0 < (c2.lookup k).getD 0
    · rw [if_pos h]
      exact count_replicate_other _ hkr
    · rw [if_neg h]
      rfl
  rw [sum_map_single allKeys hnd _ r hz]
  by_cases hr : r ∈ allKeys
  · rw [if_pos hr]
    simp only [Function.comp_apply]
    rw [hc1, hc2, countRows_count, countRows_count]
    by_cases h : rows1.count r < rows2.count r
    · rw [if_pos h, count_replicate_self]
    · rw [if_neg h]
      simp only [List.count_nil]
      omega
  · rw [if_neg hr]
    have : r ∉ rows2 := by
      intro hmem
      apply hr
      rw [hak, JsonComparator.mem_dedupFirst, List.mem_append]
      exact Or.inr (mem_countRows_keys.mpr hmem)
    rw [List.count_eq_zero.mpr this]
    omega

theorem diffRows_refl (rows : List Row) : diffRows rows rows = ⟨[], []⟩ := by
  unfold diffRows
  refine congrArg₂ Result.mk ?_ ?_ <;>
    · apply JsonComparator.flatMap_nil_of
      intro k hk
      simp

end CsvComparator

namespace JsonComparator

theorem lineDiffAux_refl : ∀ l : List String, lineDiffAux l l = []
  | [] => rfl
  | x :: xs => by simp [lineDiffAux, lineDiffAux_refl xs]

theorem compare_mode_congr (parse : String → Except String Json) (t1 t2 : String)
    {o1 o2 : Option String} (h : resolveMode o1 = resolveMode o2) :
    compare parse t1 t2 ⟨o1⟩ = compare parse t1 t2 ⟨o2⟩ := by
  unfold compare
  rw [show (Opts.mk o1).mode = o1 from rfl, show (Opts.mk o2).mode = o2 from rfl, h]

theorem resolveMode_default : resolveMode none = Mode.full := by decide

theorem resolveMode_unrecognized (s : String) (hne : s ≠ "")
    (h : toLowerJs s ∉ ["order", "ordered", "arrays", "preserve", "exact", "full"]) :
    resolveMode (some s) = Mode.ordered := by
  unfold resolveMode
  simp only [if_neg hne]
  simp only [List.mem_cons, List.mem_singleton, not_or] at h
  obtain ⟨h1, h2, h3, h4, h5, h6⟩ := h
  simp [h1, h2, h3, h4, h5, h6]

end JsonComparator

/-- Claim C1 is corrected by this counterexample: with the unrecognized mode
string `banana` the comparator does not behave as in the documented default
`full` mode — on the order-insensitively equal arrays `[1,2]` and `[2,1]` it
reports two value diffs (order-sensitive behaviour), while `full` mode
reports none. -/
theorem claim1_counterexample :
    JsonComparator.compare JsonComparator.jsonParseEx "[1,2]" "[2,1]"
        ⟨some "banana"⟩ =
      .ok ["Diff at " ++ sQuote ++ "[0]" ++ sQuote ++ ": 1 != 2",
           "Diff at " ++ sQuote ++ "[1]" ++ sQuote ++ ": 2 != 1"] ∧
    JsonComparator.compare JsonComparator.jsonParseEx "[1,2]" "[2,1]"
        ⟨some "full"⟩ = .ok [] ∧
    JsonComparator.compare JsonComparator.jsonParseEx "[1,2]" "[2,1]"
        ⟨some "banana"⟩ ≠
      JsonComparator.compare JsonComparator.jsonParseEx "[1,2]" "[2,1]"
        ⟨some "full"⟩ := by
  refine ⟨by decide, by decide, ?_⟩
  intro h
  have h1 : JsonComparator.compare JsonComparator.jsonParseEx "[1,2]" "[2,1]"
      ⟨some "banana"⟩ =
    .ok ["Diff at " ++ sQuote ++ "[0]" ++ sQuote ++ ": 1 != 2",
         "Diff at " ++ sQuote ++ "[1]" ++ sQuote ++ ": 2 != 1"] := by decide
  have h2 : JsonComparator.compare JsonComparator.jsonParseEx "[1,2]" "[2,1]"
      ⟨some "full"⟩ = .ok [] := by decide
  rw [h1, h2] at h
  injection h with h
  exact absurd h (by decide)

/-- Claim C1, amended: a missing (or empty) `mode` option defaults to `full`,
but an unrecognized mode string falls back to `ordered` (order-preserving
structural comparison), not to `full`: the comparator then behaves exactly as
with `mode = "ordered"`. -/
theorem claim1_mode_fallback :
    (∀ parse t1 t2, JsonComparator.compare parse t1 t2 ⟨none⟩ =
      JsonComparator.compare parse t1 t2 ⟨some "full"⟩) ∧
    (∀ s, s ≠ "" → toLowerJs s ∉ ["order", "ordered", "arrays", "preserve", "exact", "full"] →
      JsonComparator.resolveMode (some s) = JsonComparator.Mode.ordered ∧
      ∀ parse t1 t2, JsonComparator.compare parse t1 t2 ⟨some s⟩ =
        JsonComparator.compare parse t1 t2 ⟨some "ordered"⟩) := by
  constructor
  · intro parse t1 t2
    exact JsonComparator.compare_mode_congr parse t1 t2 (by decide)
  · intro s hne h
    refine ⟨JsonComparator.resolveMode_unrecognized s hne h, ?_⟩
    intro parse t1 t2
    apply JsonComparator.compare_mode_congr
    rw [JsonComparator.resolveMode_unrecognized s hne h]
    decide

/-- Witness for the amended C1 at the concrete unrecognized mode string
`banana`. -/
theorem claim1_witness :
    JsonComparator.resolveMode (some "banana") = JsonComparator.Mode.ordered ∧
    JsonComparator.compare JsonComparator.jsonParseEx "[1,2]" "[2,1]" ⟨some "banana"⟩ =
      JsonComparator.compare JsonComparator.jsonParseEx "[1,2]" "[2,1]" ⟨some "ordered"⟩ ∧
    JsonComparator.compare JsonComparator.jsonParseEx "[1,2]" "[2,1]" ⟨none⟩ =
      JsonComparator.compare JsonComparator.jsonParseEx "[1,2]" "[2,1]" ⟨some "full"⟩ := by
  have h := claim1_mode_fallback
  have h2 := h.2 "banana" (by decide) (by decide)
  exact ⟨h2.1, h2.2 JsonComparator.jsonParseEx "[1,2]" "[2,1]",
    h.1 JsonComparator.jsonParseEx "[1,2]" "[2,1]"⟩

/-- Claim C10, confirmed: in exact mode an empty diff does not imply
byte-for-byte equality — whenever the two texts split into the same lines
under `/\r?\n/` the comparator returns the empty sequence, and in particular
the concrete texts `a\r\nb` and `a\nb`, unequal as strings, produce no
records. -/
theorem claim10_exact_crlf :
    (∀ parse t1 t2 opts, JsonComparator.resolveMode opts.mode = .exact →
      JsonComparator.splitLines t1 = JsonComparator.splitLines t2 →
      JsonComparator.compare parse t1 t2 opts = .ok []) ∧
    ("a\r\nb" ≠ "a\nb") ∧
    JsonComparator.compare JsonComparator.jsonParseEx "a\r\nb" "a\nb"
      ⟨some "exact"⟩ = .ok [] := by
  refine ⟨?_, by decide, by decide⟩
  intro parse t1 t2 opts hmode hsplit
  unfold JsonComparator.compare
  rw [hmode]
  by_cases h : t1 = t2
  · simp [h]
  · simp only [if_pos rfl, if_neg h]
    unfold JsonComparator.lineDiff
    rw [hsplit, JsonComparator.lineDiffAux_refl]
    simp

/-- Witness for C10's general part at the concrete CRLF/LF pair. -/
theorem claim10_witness :
    JsonComparator.compare JsonComparator.jsonParseEx "x\r\ny" "x\ny"
      ⟨some "exact"⟩ = .ok [] :=
  claim10_exact_crlf.1 JsonComparator.jsonParseEx "x\r\ny" "x\ny" ⟨some "exact"⟩
    (by decide) (by decide)

/-- Claim C2 is corrected by this counterexample: the two attribute maps
hold the same key/value pairs (they are permutations of each other), yet the
differ emits an `Attrib diff` record, because it compares the maps by their
insertion-order `JSON.stringify` serializations, not by canonical-sorted
pairs. -/
theorem claim2_counterexample :
    ([("a", "1"), ("b", "2")] : List (String × String)).Perm [("b", "2"), ("a", "1")] ∧
    XmlComparator.diff (.elem "x" [("a", "1"), ("b", "2")] [])
        (.elem "x" [("b", "2"), ("a", "1")] []) "p" =
      [XmlComparator.attribMsg "p" [("a", "1"), ("b", "2")] [("b", "2"), ("a", "1")]] ∧
    XmlComparator.diff (.elem "x" [("a", "1"), ("b", "2")] [])
        (.elem "x" [("b", "2"), ("a", "1")] []) "p" ≠ [] := by
  refine ⟨List.Perm.swap ("b", "2") ("a", "1") [], by decide, by decide⟩

/-- Claim C2, amended: the differ compares attribute maps by their
`JSON.stringify` serialization in insertion (document) order — equal maps
listed in a different order do produce a record — and any inequality of the
serializations yields exactly one atomic record for the whole map, never one
record per attribute: with equal tags and equal children the element
comparison emits exactly the attribute part, one record or none. -/
theorem claim2_attrib_atomic (tag : String) (a1 a2 : List (String × String))
    (cs : List XmlComparator.NNode) (path : String) :
    XmlComparator.diff (.elem tag a1 cs) (.elem tag a2 cs) path =
      if XmlComparator.stringifyAttrs a1 = XmlComparator.stringifyAttrs a2 then []
      else [XmlComparator.attribMsg path a1 a2] := by
  rw [XmlComparator.diff]
  rw [if_pos rfl, XmlComparator.diffChildren_refl cs (fun c _ => XmlComparator.diff_refl c) path]
  simp [List.drop_length]

/-- Witness exercising the amended C2 at concrete inputs: equal lists give
no record, reordered equal maps give exactly one. -/
theorem claim2_witness :
    XmlComparator.diff (.elem "x" [("a", "1")] []) (.elem "x" [("a", "1")] []) "p" =
      (if XmlComparator.stringifyAttrs [("a", "1")] =
          XmlComparator.stringifyAttrs [("a", "1")] then []
       else [XmlComparator.attribMsg "p" [("a", "1")] [("a", "1")]]) :=
  claim2_attrib_atomic "x" [("a", "1")] [("a", "1")] [] "p"

/-- Claim C3 is corrected by this counterexample: the two XML documents'
root child lists are the same two elements in swapped order (a permutation
of structurally identical children, hence multiset-equal at every node), yet
full-mode (order-insensitive) comparison is non-empty: the child sort key
uses only the tag and attributes, so the two `a` children collide and stay
in their document order, and the differ then compares `<b/>` against
`<c/>`. -/
theorem claim3_counterexample :
    XmlComparator.xmlDocA =
      .elem "r" [] [.elem "a" [] [.elem "b" [] []], .elem "a" [] [.elem "c" [] []]] ∧
    XmlComparator.xmlDocB =
      .elem "r" [] [.elem "a" [] [.elem "c" [] []], .elem "a" [] [.elem "b" [] []]] ∧
    ([XmlComparator.XNode.elem "a" [] [.elem "b" [] []],
      XmlComparator.XNode.elem "a" [] [.elem "c" [] []]] : List XmlComparator.XNode).Perm
      [.elem "a" [] [.elem "c" [] []], .elem "a" [] [.elem "b" [] []]] ∧
    XmlComparator.compare XmlComparator.xmlParseEx
        "<r><a><b/></a><a><c/></a></r>" "<r><a><c/></a><a><b/></a></r>" ⟨false⟩ =
      .ok ["Tag diff at /r/a/b: b != c", "Tag diff at /r/a/c: c != b"] ∧
    (["Tag diff at /r/a/b: b != c", "Tag diff at /r/a/c: c != b"] : List String) ≠ [] := by
  refine ⟨rfl, rfl, ?_, by decide, by decide⟩
  exact List.Perm.swap (XmlComparator.XNode.elem "a" [] [XmlComparator.XNode.elem "c" [] []])
    (XmlComparator.XNode.elem "a" [] [XmlComparator.XNode.elem "b" [] []]) []

/-- Claim C3, amended: for the JSON comparator the claim holds — the
full-mode sort key is the entire JSON serialization of the canonicalized
child, which is injective, so a sort-key collision implies the children are
diff-equal, and documents whose array element lists are equal as multisets
at every node (the congruence/permutation closure `MEq`) compare empty in
full mode. For the XML comparator the claim fails (see the counterexample):
its sort key ignores children. -/
theorem claim3_full_mode_key :
    (∀ c1 c2 : JsonComparator.Json, ∀ path,
      JsonComparator.stringify c1 = JsonComparator.stringify c2 →
      JsonComparator.findDifferences c1 c2 path = []) ∧
    (∀ j1 j2 : JsonComparator.Json, ∀ path, JsonComparator.MEq j1 j2 →
      JsonComparator.findDifferences (JsonComparator.sortJson .full j1)
        (JsonComparator.sortJson .full j2) path = []) := by
  constructor
  · intro c1 c2 path h
    rw [JsonComparator.stringify_inj h]
    exact JsonComparator.findDifferences_refl c2 path
  · intro j1 j2 path h
    rw [JsonComparator.sortJson_full_eq_of_MEq h]
    exact JsonComparator.findDifferences_refl _ path

/-- Witness for the amended C3: the arrays `[1,2]` and `[2,1]` are
multiset-equal, and full-mode canonicalization indeed makes them compare
empty; the collision half is exercised at a serialization equality. -/
theorem claim3_witness :
    JsonComparator.findDifferences
      (JsonComparator.sortJson .full (.arr [.num 1, .num 2]))
      (JsonComparator.sortJson .full (.arr [.num 2, .num 1])) "" = [] ∧
    JsonComparator.findDifferences (.arr [.num 7]) (.arr [.num 7]) "p" = [] := by
  constructor
  · exact claim3_full_mode_key.2 (.arr [.num 1, .num 2]) (.arr [.num 2, .num 1]) ""
      (JsonComparator.MEq.perm _ _
        (List.Perm.swap (JsonComparator.Json.num 2) (JsonComparator.Json.num 1) []))
  · exact claim3_full_mode_key.1 (.arr [.num 7]) (.arr [.num 7]) "p" rfl

/-- Claim C4, confirmed — reflexivity: comparing any document with itself
yields the empty sequence in the JSON comparator (exact mode
unconditionally; structural modes whenever the document parses), in the XML
comparator (in both order modes, whenever the document parses), and in the
CSV row comparator (unconditionally, for every option set). -/
theorem claim4_reflexivity :
    (∀ parse t opts j, parse t = .ok j →
      JsonComparator.compare parse t t opts = .ok []) ∧
    (∀ parse t opts, JsonComparator.resolveMode opts.mode = .exact →
      JsonComparator.compare parse t t opts = .ok []) ∧
    (∀ domParse t opts r, domParse t = .ok r →
      XmlComparator.compare domParse t t opts = .ok []) ∧
    (∀ t opts, CsvComparator.compare t t opts = ⟨[], []⟩) := by
  refine ⟨?_, ?_, ?_, ?_⟩
  · intro parse t opts j hj
    by_cases hm : JsonComparator.resolveMode opts.mode = .exact
    · unfold JsonComparator.compare
      rw [hm]
      simp
    · unfold JsonComparator.compare
      rw [if_neg hm, hj]
      simp [JsonComparator.findDifferences_refl]
  · intro parse t opts hm
    unfold JsonComparator.compare
    rw [hm]
    simp
  · intro domParse t opts r hr
    unfold XmlComparator.compare XmlComparator.parseXml
    rw [hr]
    simp [XmlComparator.diff_refl]
  · intro t opts
    exact CsvComparator.diffRows_refl _

/-- Witness for C4 at concrete documents for each comparator. -/
theorem claim4_witness :
    JsonComparator.compare JsonComparator.jsonParseEx "[1,2]" "[1,2]"
      ⟨some "full"⟩ = .ok [] ∧
    JsonComparator.compare JsonComparator.jsonParseEx "whatever" "whatever"
      ⟨some "exact"⟩ = .ok [] ∧
    XmlComparator.compare XmlComparator.xmlParseEx
      "<r><a><b/></a><a><c/></a></r>" "<r><a><b/></a><a><c/></a></r>" ⟨true⟩ = .ok [] ∧
    CsvComparator.compare "a,b\nc,d" "a,b\nc,d" {} = ⟨[], []⟩ :=
  ⟨claim4_reflexivity.1 JsonComparator.jsonParseEx "[1,2]" ⟨some "full"⟩
      (.arr [.num 1, .num 2]) rfl,
   claim4_reflexivity.2.1 JsonComparator.jsonParseEx "whatever" ⟨some "exact"⟩ (by decide),
   claim4_reflexivity.2.2.1 XmlComparator.xmlParseEx "<r><a><b/></a><a><c/></a></r>" ⟨true⟩
      XmlComparator.xmlDocA rfl,
   claim4_reflexivity.2.2.2 "a,b\nc,d" {}⟩

/-- Claim C5, confirmed — sequence length mismatch: when `len1 < len2` the
differ recurses positionally on indices `0..len1-1` and then emits exactly
one extra-item record per index `len1..len2-1`, ascending, each attributed
to the second (longer) document; concretely, `[1,2]` against `[1,2,3,4]` in
ordered mode yields exactly the two records for indices 2 and 3. -/
theorem claim5_length_mismatch :
    (∀ (l1 l2 : List JsonComparator.Json) (path : String), l1.length < l2.length →
      JsonComparator.findDifferences (.arr l1) (.arr l2) path =
        (List.range l1.length).flatMap
          (fun i => JsonComparator.findDifferences (l1.getD i .null) (l2.getD i .null)
            (JsonComparator.idxPath path i)) ++
        (List.range' l1.length (l2.length - l1.length)).map
          (fun i => JsonComparator.itemMsg path i "second")) ∧
    JsonComparator.compare JsonComparator.jsonParseEx "[1,2]" "[1,2,3,4]"
        ⟨some "ordered"⟩ =
      .ok [JsonComparator.itemMsg "" 2 "second", JsonComparator.itemMsg "" 3 "second"] := by
  constructor
  · intro l1 l2 path h
    rw [JsonComparator.findDifferences_arr]
    rw [Nat.min_eq_left (Nat.le_of_lt h)]
    unfold JsonComparator.extraItems
    rw [if_neg (by omega)]
  · decide

/-- Witness for C5's general part at `[1]` versus `[1,2,3]`. -/
theorem claim5_witness :
    JsonComparator.findDifferences (.arr [.num 1]) (.arr [.num 1, .num 2, .num 3]) "" =
      (List.range ([JsonComparator.Json.num 1]).length).flatMap
        (fun i => JsonComparator.findDifferences
          (([JsonComparator.Json.num 1]).getD i .null)
          (([JsonComparator.Json.num 1, .num 2, .num 3]).getD i .null)
          (JsonComparator.idxPath "" i)) ++
      (List.range' 1 2).map (fun i => JsonComparator.itemMsg "" i "second") :=
  claim5_length_mismatch.1 [.num 1] [.num 1, .num 2, .num 3] "" (by decide)

/-- Claim C6, confirmed — keyed comparison: the object branch of the differ
coincides with the spec's description (union of the key sets, one
key-only-in-side record per one-sided key, recursion on shared keys), the
visited key sequence is lexicographically sorted, and the objects
`{"a":1,"b":2}` and `{"b":2,"a":1}` compare empty in both structural
modes. -/
theorem claim6_keyed_union :
    (∀ (ps1 ps2 : List (String × JsonComparator.Json)) (path : String),
      JsonComparator.findDifferences (.obj ps1) (.obj ps2) path =
        JsonComparator.keyedDiffSpec JsonComparator.findDifferences ps1 ps2 path) ∧
    (∀ ps1 ps2 : List (String × JsonComparator.Json),
      (JsonComparator.unionKeys ps1 ps2).Pairwise (fun a b => strLeB a b = true)) ∧
    JsonComparator.compare JsonComparator.jsonParseEx
      "\x7b\"a\":1,\"b\":2\x7d" "\x7b\"b\":2,\"a\":1\x7d" ⟨some "full"⟩ = .ok [] ∧
    JsonComparator.compare JsonComparator.jsonParseEx
      "\x7b\"a\":1,\"b\":2\x7d" "\x7b\"b\":2,\"a\":1\x7d" ⟨some "ordered"⟩ = .ok [] := by
  refine ⟨?_, ?_, by decide, by decide⟩
  · intro ps1 ps2 path
    rw [JsonComparator.findDifferences_obj]
    unfold JsonComparator.keyedDiffSpec
    apply List.flatMap_congr
    intro k hk
    rcases hl1 : ps1.lookup k with _ | v1 <;> rcases hl2 : ps2.lookup k with _ | v2
    · have h1 : k ∉ ps1.map Prod.fst := by
        intro hmem
        obtain ⟨v, hv⟩ := JsonComparator.lookup_isSome_of_mem_keys hmem
        rw [hv] at hl1
        cases hl1
      simp [h1]
    · have h1 : k ∉ ps1.map Prod.fst := by
        intro hmem
        obtain ⟨v, hv⟩ := JsonComparator.lookup_isSome_of_mem_keys hmem
        rw [hv] at hl1
        cases hl1
      simp [h1]
    · have h1 : k ∈ ps1.map Prod.fst :=
        List.mem_map.mpr ⟨(k, v1), JsonComparator.lookup_mem hl1, rfl⟩
      have h2 : k ∉ ps2.map Prod.fst := by
        intro hmem
        obtain ⟨v, hv⟩ := JsonComparator.lookup_isSome_of_mem_keys hmem
        rw [hv] at hl2
        cases hl2
      simp [h1, h2]
    · have h1 : k ∈ ps1.map Prod.fst :=
        List.mem_map.mpr ⟨(k, v1), JsonComparator.lookup_mem hl1, rfl⟩
      have h2 : k ∈ ps2.map Prod.fst :=
        List.mem_map.mpr ⟨(k, v2), JsonComparator.lookup_mem hl2, rfl⟩
      simp [h1, h2, hl1, hl2]
  · intro ps1 ps2
    unfold JsonComparator.unionKeys
    haveI : IsTotal String (fun a b => strLeB a b = true) := ⟨strLeB_total⟩
    haveI : IsTrans String (fun a b => strLeB a b = true) :=
      ⟨fun a b c h1 h2 => strLeB_trans h1 h2⟩
    exact List.sorted_insertionSort _ _

/-- Claim C7, confirmed — multiset symmetric difference: for every pair of
row sequences and every row, the only-in-first output holds exactly
`count1 - count2` copies of the row (truncated at zero) and the
only-in-second output exactly `count2 - count1`; and concretely rows
`[A,A,B]` against `[A,B,B]` yield `onlyInFirst = [A]`,
`onlyInSecond = [B]`, both through the core and end-to-end through
`compare` on CSV texts. -/
theorem claim7_multiset_diff :
    (∀ rows1 rows2 : List CsvComparator.Row, ∀ r : CsvComparator.Row,
      ((CsvComparator.diffRows rows1 rows2).missingInFile2).count r =
        rows1.count r - rows2.count r ∧
      ((CsvComparator.diffRows rows1 rows2).missingInFile1).count r =
        rows2.count r - rows1.count r) ∧
    CsvComparator.diffRows [["a"], ["a"], ["b"]] [["a"], ["b"], ["b"]] =
      ⟨[["a"]], [["b"]]⟩ ∧
    CsvComparator.compare "a\na\nb" "a\nb\nb" {} = ⟨[["a"]], [["b"]]⟩ :=
  ⟨fun rows1 rows2 r => ⟨CsvComparator.count_diffRows_first rows1 rows2 r,
      CsvComparator.count_diffRows_second rows1 rows2 r⟩,
   by decide, by decide⟩

/-- Claim C8 is corrected by this counterexample: with ignore-empty on (the
default), the row `["", ""]` — whose cells are all empty after trimming —
is not dropped: parsing `","` against the empty input reports it as missing
from the second file; likewise the whitespace-only row `[" "]` (cells are
not trimmed before the emptiness test). -/
theorem claim8_counterexample :
    CsvComparator.compare "," "" {} = ⟨[["", ""]], []⟩ ∧
    (["", ""] : List String).all (fun c => trimJs c = "") = true ∧
    CsvComparator.compare " " "" {} = ⟨[[" "]], []⟩ ∧
    trimJs " " = "" :=
  ⟨by decide, by decide, by decide, by decide⟩

/-- Claim C8, amended: with ignore-empty enabled (its default) the parser
drops only rows consisting of exactly one empty untrimmed cell — blank
lines — not every row whose cells are all empty after trimming; with
ignore-empty off nothing is dropped; and with the ignore-header option the
first row of each side is excluded before counting. -/
theorem claim8_row_filtering :
    (∀ (row : CsvComparator.Row) (rows : List CsvComparator.Row),
      CsvComparator.pushRow true row rows =
        if row = [""] then rows else rows ++ [row]) ∧
    (∀ (row : CsvComparator.Row) (rows : List CsvComparator.Row),
      CsvComparator.pushRow false row rows = rows ++ [row]) ∧
    (∀ (t1 t2 : String) (d : Option Char) (ie : Option Bool),
      CsvComparator.compare t1 t2 ⟨d, true, ie⟩ =
        CsvComparator.diffRows
          ((CsvComparator.parseCSV t1 (d.getD ',') (ie ≠ some false)).drop 1)
          ((CsvComparator.parseCSV t2 (d.getD ',') (ie ≠ some false)).drop 1)) := by
  refine ⟨?_, ?_, ?_⟩
  · intro row rows
    unfold CsvComparator.pushRow
    rcases row with _ | ⟨c, rest⟩
    · simp
    · rcases rest with _ | ⟨c2, rest2⟩
      · by_cases hc : c = "" <;> simp [hc]
      · simp
  · intro row rows
    unfold CsvComparator.pushRow
    simp
  · intro t1 t2 d ie
    simp only [CsvComparator.compare]
    congr 1 <;>
    · generalize CsvComparator.parseCSV _ _ _ = rows
      rcases rows with _ | ⟨r0, rest⟩ <;> simp

/-- Claim C9, confirmed — parse errors and differ totality: in every
structural-mode JSON comparison a parse failure on either side yields
exactly one error naming that side (`File A` / `File B`) and no diff
records, the comparison not proceeding; and when both sides parse the
result is always `ok` — the differ itself is a total function. The XML
comparator behaves the same with its `XML A` / `XML B` labels. -/
theorem claim9_parse_errors :
    (∀ parse t1 t2 (opts : JsonComparator.Opts),
      JsonComparator.resolveMode opts.mode ≠ .exact →
      (∀ e, parse t1 = .error e →
        JsonComparator.compare parse t1 t2 opts =
          .error ("File A is not valid JSON: " ++ e)) ∧
      (∀ j1 e, parse t1 = .ok j1 → parse t2 = .error e →
        JsonComparator.compare parse t1 t2 opts =
          .error ("File B is not valid JSON: " ++ e)) ∧
      (∀ j1 j2, parse t1 = .ok j1 → parse t2 = .ok j2 →
        JsonComparator.compare parse t1 t2 opts =
          .ok (JsonComparator.findDifferences
            (JsonComparator.sortJson
              (if JsonComparator.resolveMode opts.mode = .full then .full else .ordered) j1)
            (JsonComparator.sortJson
              (if JsonComparator.resolveMode opts.mode = .full then .full else .ordered) j2)
            ""))) ∧
    (∀ domParse t1 t2 (opts : XmlComparator.Opts),
      (∀ e, domParse t1 = .error e →
        XmlComparator.compare domParse t1 t2 opts =
          .error ("XML A" ++ " parse error: " ++
            trimJs (collapseWs (if e = "" then "Unknown parse error" else e)))) ∧
      (∀ r1 e, domParse t1 = .ok r1 → domParse t2 = .error e →
        XmlComparator.compare domParse t1 t2 opts =
          .error ("XML B" ++ " parse error: " ++
            trimJs (collapseWs (if e = "" then "Unknown parse error" else e)))) ∧
      (∀ r1 r2, domParse t1 = .ok r1 → domParse t2 = .ok r2 →
        XmlComparator.compare domParse t1 t2 opts =
          .ok (XmlComparator.diff (XmlComparator.normalize opts.orderSensitive r1)
            (XmlComparator.normalize opts.orderSensitive r2)
            ("/" ++ XmlComparator.rootTag r1)))) := by
  constructor
  · intro parse t1 t2 opts hm
    refine ⟨?_, ?_, ?_⟩
    · intro e he
      unfold JsonComparator.compare
      rw [if_neg hm, he]
    · intro j1 e h1 h2
      unfold JsonComparator.compare
      rw [if_neg hm, h1, h2]
    · intro j1 j2 h1 h2
      unfold JsonComparator.compare
      rw [if_neg hm, h1, h2]
  · intro domParse t1 t2 opts
    refine ⟨?_, ?_, ?_⟩
    · intro e he
      unfold XmlComparator.compare XmlComparator.parseXml
      rw [he]
    · intro r1 e h1 h2
      unfold XmlComparator.compare XmlComparator.parseXml
      rw [h1, h2]
    · intro r1 r2 h1 h2
      unfold XmlComparator.compare XmlComparator.parseXml
      rw [h1, h2]

/-- Witness for C9 at concrete parse functions: a failing first side, a
failing second side, and a comparison where both sides parse. -/
theorem claim9_witness :
    JsonComparator.compare JsonComparator.jsonParseEx "bad" "[1,2]" ⟨some "full"⟩ =
      .error ("File A is not valid JSON: " ++ "Unexpected token") ∧
    JsonComparator.compare JsonComparator.jsonParseEx "[1,2]" "bad" ⟨some "full"⟩ =
      .error ("File B is not valid JSON: " ++ "Unexpected token") ∧
    XmlComparator.compare XmlComparator.xmlParseEx "oops" "oops" ⟨false⟩ =
      .error ("XML A" ++ " parse error: " ++
        trimJs (collapseWs "Extra content at the end of the document")) ∧
    JsonComparator.compare JsonComparator.jsonParseEx "[1,2]" "[2,1]" ⟨some "full"⟩ =
      .ok (JsonComparator.findDifferences
        (JsonComparator.sortJson .full (.arr [.num 1, .num 2]))
        (JsonComparator.sortJson .full (.arr [.num 2, .num 1])) "") := by
  refine ⟨?_, ?_, ?_, ?_⟩
  · exact ((claim9_parse_errors.1 JsonComparator.jsonParseEx "bad" "[1,2]" ⟨some "full"⟩
      (by decide)).1 "Unexpected token" rfl)
  · exact ((claim9_parse_errors.1 JsonComparator.jsonParseEx "[1,2]" "bad" ⟨some "full"⟩
      (by decide)).2.1 (.arr [.num 1, .num 2]) "Unexpected token" rfl rfl)
  · exact ((claim9_parse_errors.2 XmlComparator.xmlParseEx "oops" "oops" ⟨false⟩).1
      "Extra content at the end of the document" rfl)
  · have := ((claim9_parse_errors.1 JsonComparator.jsonParseEx "[1,2]" "[2,1]"
      ⟨some "full"⟩ (by decide)).2.2 (.arr [.num 1, .num 2]) (.arr [.num 2, .num 1]) rfl rfl)
    simpa using this
